import Mathlib

/-!
# appleseed: mesh object, shader, distance and path functions

A shallow embedding of `renderer/modeling/object/meshobject.cpp`,
`renderer/modeling/shadergroup/shader.cpp`, `foundation/math/distance.h` and
`foundation/utility/path.h`.

Scalars (`float` in the source) are rationals: every statement below is over
exact arithmetic.  `std::vector` is a `List`, `size_t` values that count the
elements of a vector are `Nat` (a vector never holds more than `max_size()`
elements, so no count wraps).  A reference into the object is a `Ptr` naming
the member it refers to.
-/

namespace renderer

/-! ## Geometry types -/

/-- Type `GVector3`: a 3D vector of scalars. -/
structure GVector3 where
  x : ℚ
  y : ℚ
  z : ℚ
deriving DecidableEq

/-- Type `GVector2`: a 2D vector of scalars (texture coordinates). -/
structure GVector2 where
  x : ℚ
  y : ℚ
deriving DecidableEq

/-- Embeds `operator[]` of a 3D vector: the component at axis `k`. -/
def GVector3.get (v : GVector3) (k : Fin 3) : ℚ :=
  match k with
  | 0 => v.x
  | 1 => v.y
  | 2 => v.z

/-- Modelled from the spec: `square_norm` of `foundation/math/vector.h`, which
is not part of the sources at hand: the sum of the squared components. -/
def square_norm (v : GVector3) : ℚ :=
  v.x * v.x + v.y * v.y + v.z * v.z

/-- Modelled from the spec: `is_normalized` of `foundation/math/vector.h`, which
is not part of the sources at hand.  The spec asks for unit-length normals; over
exact arithmetic that is a square norm of one. -/
def is_normalized (v : GVector3) : Bool :=
  decide (square_norm v = 1)

/-- Modelled from the spec: `Triangle` of `renderer/modeling/object/triangle.h`,
which is not part of the sources at hand.  A triangle references three vertices,
three vertex normals, three texture coordinates and one material slot, each by
index. -/
structure Triangle where
  m_v0 : Nat
  m_v1 : Nat
  m_v2 : Nat
  m_n0 : Nat
  m_n1 : Nat
  m_n2 : Nat
  m_a0 : Nat
  m_a1 : Nat
  m_a2 : Nat
  m_pa : Nat
deriving DecidableEq

/-- Modelled from the spec: `GAABB3` of `foundation/math/aabb.h`, which is not
part of the sources at hand.  A box is either the invalid (empty) box, which
holds no point and is neutral for the union, or a box with a min and a max
corner. -/
inductive GAABB3 where
  | invalid
  | valid (min max : GVector3)
deriving DecidableEq

/-- Modelled from the spec: growing a box so that it contains a point (the
union of the box with the point). -/
def GAABB3.insert (b : GAABB3) (p : GVector3) : GAABB3 :=
  match b with
  | .invalid => .valid p p
  | .valid mn mx =>
      .valid ⟨min mn.x p.x, min mn.y p.y, min mn.z p.z⟩
             ⟨max mx.x p.x, max mx.y p.y, max mx.z p.z⟩

/-! ## Tessellation buffer -/

/-- Outcome of an access into the pose table. -/
inductive PoseError where
  | index_out_of_range
deriving DecidableEq

/-- Modelled from the spec: `StaticTriangleTess` of
`renderer/kernel/tessellation/statictessellation.h`, which is not part of the
sources at hand.  The members `m_vertices`, `m_vertex_normals` and
`m_primitives` are the ones `meshobject.cpp` reads and writes directly; the
texture coordinates, the motion segment count and the pose table are reached
through member functions only.  The pose table gives the position of vertex `i`
at motion segment `j`; a pose that was never set reads as the zero vector. -/
structure StaticTriangleTess where
  m_vertices : List GVector3
  m_vertex_normals : List GVector3
  m_uv_vertices : List GVector2
  m_primitives : List Triangle
  m_motion_segment_count : Nat
  m_vertex_poses : Nat → Nat → GVector3

namespace StaticTriangleTess

/-- Modelled from the spec: the default-constructed tessellation holds no
element and no motion segment. -/
def empty : StaticTriangleTess :=
  { m_vertices := []
    m_vertex_normals := []
    m_uv_vertices := []
    m_primitives := []
    m_motion_segment_count := 0
    m_vertex_poses := fun _ _ => ⟨0, 0, 0⟩ }

/-- Modelled from the spec: `push_uv_vertex` appends and returns the 0-based
index given to the new element. -/
def push_uv_vertex (t : StaticTriangleTess) (uv : GVector2) : Nat × StaticTriangleTess :=
  (t.m_uv_vertices.length, { t with m_uv_vertices := t.m_uv_vertices ++ [uv] })

/-- Modelled from the spec: `get_uv_vertex_count`. -/
def get_uv_vertex_count (t : StaticTriangleTess) : Nat :=
  t.m_uv_vertices.length

/-- Modelled from the spec: `set_motion_segment_count(n)` declares that every
vertex carries `n` time-sampled positions. -/
def set_motion_segment_count (t : StaticTriangleTess) (count : Nat) : StaticTriangleTess :=
  { t with m_motion_segment_count := count }

/-- Modelled from the spec: `get_motion_segment_count`. -/
def get_motion_segment_count (t : StaticTriangleTess) : Nat :=
  t.m_motion_segment_count

/-- Modelled from the spec: `set_vertex_pose` writes one entry of the pose
table; it fails with an index-out-of-range condition if
`vertex_index >= vertex_count` or `segment_index >= motion_segment_count`.
The result is the outcome together with the tessellation after the call. -/
def set_vertex_pose (t : StaticTriangleTess) (vertex_index motion_segment_index : Nat)
    (v : GVector3) : Except PoseError Unit × StaticTriangleTess :=
  if vertex_index ≥ t.m_vertices.length ∨ motion_segment_index ≥ t.m_motion_segment_count then
    (.error .index_out_of_range, t)
  else
    (.ok (),
      { t with
        m_vertex_poses := fun i j =>
          if i = vertex_index ∧ j = motion_segment_index then v else t.m_vertex_poses i j })

/-- Modelled from the spec: `get_vertex_pose` reads one entry of the pose
table; it fails under the same condition as `set_vertex_pose`. -/
def get_vertex_pose (t : StaticTriangleTess) (vertex_index motion_segment_index : Nat) :
    Except PoseError GVector3 :=
  if vertex_index ≥ t.m_vertices.length ∨ motion_segment_index ≥ t.m_motion_segment_count then
    .error .index_out_of_range
  else
    .ok (t.m_vertex_poses vertex_index motion_segment_index)

/-- Modelled from the spec: `clear_vertex_poses` resets the motion segment
count to 0 and discards all pose data. -/
def clear_vertex_poses (t : StaticTriangleTess) : StaticTriangleTess :=
  { t with m_motion_segment_count := 0, m_vertex_poses := fun _ _ => ⟨0, 0, 0⟩ }

/-- The pose samples of every vertex, vertex by vertex and segment by segment. -/
def pose_samples (t : StaticTriangleTess) : List GVector3 :=
  (List.range t.m_vertices.length).flatMap fun i =>
    (List.range t.m_motion_segment_count).map fun j => t.m_vertex_poses i j

/-- Modelled from the spec: `compute_local_bbox` returns the union, over all
vertices and (if motion segments exist) all their pose samples, of point
positions; it is the invalid box when there is no vertex. -/
def compute_local_bbox (t : StaticTriangleTess) : GAABB3 :=
  let bbox := t.m_vertices.foldl GAABB3.insert .invalid
  if t.m_motion_segment_count > 0 then
    t.pose_samples.foldl GAABB3.insert bbox
  else
    bbox

end StaticTriangleTess

/-! ## Region, region kit, lazy cell -/

/-- A pointer to a member of `MeshObject::Impl`. -/
inductive Ptr where
  | m_tess
  | m_region
  | m_region_kit
  | m_lazy_region_kit
  | m_material_slots
deriving DecidableEq

/-- Modelled from the spec: `Lazy<T>` of `foundation/utility/lazy.h`, which is
not part of the sources at hand.  A cell holds a factory that has not run yet,
or the value its factory produced, or a non-owning pointer to a value supplied
at construction. -/
inductive Lazy (T : Type) where
  | factory (make : Unit → T)
  | cached (value : T)
  | pointer (target : Ptr)

/-- Modelled from the spec: `access()` returns the cached value if there is
one, otherwise it runs the factory once and caches the result; a cell built
from a pointer gives the value behind the pointer.  The result is the value
together with the cell after the call. -/
def Lazy.access {T : Type} (deref : Ptr → Option T) (c : Lazy T) : Option T × Lazy T :=
  match c with
  | .factory make => (some (make ()), .cached (make ()))
  | .cached value => (some value, .cached value)
  | .pointer target => (deref target, .pointer target)

/-- Embeds `MeshRegion`: a dummy region that simply wraps a tessellation. -/
structure MeshRegion where
  m_tess : Ptr
  m_lazy_tess : Lazy StaticTriangleTess

/-- Embeds `MeshRegion::MeshRegion(tess)`. -/
def MeshRegion.new (tess : Ptr) : MeshRegion :=
  { m_tess := tess, m_lazy_tess := .pointer tess }

/-- Embeds `RegionKit`: an ordered collection of region pointers. -/
abbrev RegionKit := List Ptr

/-- Embeds `MeshObject::Impl`. -/
structure Impl where
  m_tess : StaticTriangleTess
  m_region : MeshRegion
  m_region_kit : RegionKit
  m_lazy_region_kit : Lazy RegionKit
  m_material_slots : List String

/-- Embeds `Impl::Impl()`: the members are initialised, then the body pushes the
address of the region onto the region kit. -/
def Impl.new : Impl :=
  let i : Impl :=
    { m_tess := StaticTriangleTess.empty
      m_region := MeshRegion.new .m_tess
      m_region_kit := []
      m_lazy_region_kit := .pointer .m_region_kit
      m_material_slots := [] }
  { i with m_region_kit := i.m_region_kit ++ [.m_region] }

/-- The tessellation a pointer refers to. -/
def Impl.deref_tess (i : Impl) : Ptr → Option StaticTriangleTess
  | .m_tess => some i.m_tess
  | _ => none

/-- The region a pointer refers to. -/
def Impl.deref_region (i : Impl) : Ptr → Option MeshRegion
  | .m_region => some i.m_region
  | _ => none

/-- The region kit a pointer refers to. -/
def Impl.deref_region_kit (i : Impl) : Ptr → Option RegionKit
  | .m_region_kit => some i.m_region_kit
  | _ => none

/-- The lazy region kit cell a pointer refers to. -/
def Impl.deref_lazy_region_kit (i : Impl) : Ptr → Option (Lazy RegionKit)
  | .m_lazy_region_kit => some i.m_lazy_region_kit
  | _ => none

/-- Embeds `MeshRegion::compute_local_bbox`: `m_tess->compute_local_bbox()`, read in
the object the region lives in. -/
def MeshRegion.compute_local_bbox (r : MeshRegion) (heap : Impl) : Option GAABB3 :=
  (heap.deref_tess r.m_tess).map StaticTriangleTess.compute_local_bbox

/-- Embeds `MeshRegion::get_static_triangle_tess`: the lazy cell of the region. -/
def MeshRegion.get_static_triangle_tess (r : MeshRegion) : Lazy StaticTriangleTess :=
  r.m_lazy_tess

/-! ## Mesh object -/

/-- Embeds `MeshObject`: the object owns its `Impl`.  The `Object` base (name and
parameters) takes no part in the operations below and is left out. -/
structure MeshObject where
  impl : Impl

namespace MeshObject

/-- Embeds `MeshObject::MeshObject` through `MeshObjectFactory::create`. -/
def create : MeshObject :=
  { impl := Impl.new }

/-- Embeds `MeshObject::compute_local_bbox`. -/
def compute_local_bbox (o : MeshObject) : GAABB3 :=
  o.impl.m_tess.compute_local_bbox

/-- Embeds `MeshObject::get_region_kit`: a reference to the lazy cell member; the
object after the call is returned with it. -/
def get_region_kit (o : MeshObject) : Ptr × MeshObject :=
  (.m_lazy_region_kit, o)

/-- Embeds `MeshObject::reserve_vertices`: only the capacity of the vector changes. -/
def reserve_vertices (o : MeshObject) (_count : Nat) : MeshObject :=
  o

/-- Embeds `MeshObject::push_vertex`. -/
def push_vertex (o : MeshObject) (vertex : GVector3) : Nat × MeshObject :=
  let index := o.impl.m_tess.m_vertices.length
  (index,
    { o with impl := { o.impl with
        m_tess := { o.impl.m_tess with m_vertices := o.impl.m_tess.m_vertices ++ [vertex] } } })

/-- Embeds `MeshObject::get_vertex_count`. -/
def get_vertex_count (o : MeshObject) : Nat :=
  o.impl.m_tess.m_vertices.length

/-- Embeds `MeshObject::get_vertex`: unchecked `operator[]`, defined below the count. -/
def get_vertex (o : MeshObject) (index : Nat) : Option GVector3 :=
  o.impl.m_tess.m_vertices[index]?

/-- Embeds `MeshObject::reserve_vertex_normals`. -/
def reserve_vertex_normals (o : MeshObject) (_count : Nat) : MeshObject :=
  o

/-- Embeds `MeshObject::push_vertex_normal`: the assertion `is_normalized(normal)`
guards the push; `none` is the failed assertion. -/
def push_vertex_normal (o : MeshObject) (normal : GVector3) : Option (Nat × MeshObject) :=
  if is_normalized normal then
    let index := o.impl.m_tess.m_vertex_normals.length
    some (index,
      { o with impl := { o.impl with
          m_tess := { o.impl.m_tess with
            m_vertex_normals := o.impl.m_tess.m_vertex_normals ++ [normal] } } })
  else
    none

/-- Embeds `MeshObject::get_vertex_normal_count`. -/
def get_vertex_normal_count (o : MeshObject) : Nat :=
  o.impl.m_tess.m_vertex_normals.length

/-- Embeds `MeshObject::get_vertex_normal`. -/
def get_vertex_normal (o : MeshObject) (index : Nat) : Option GVector3 :=
  o.impl.m_tess.m_vertex_normals[index]?

/-- Embeds `MeshObject::push_tex_coords`. -/
def push_tex_coords (o : MeshObject) (tex_coords : GVector2) : Nat × MeshObject :=
  let r := o.impl.m_tess.push_uv_vertex tex_coords
  (r.1, { o with impl := { o.impl with m_tess := r.2 } })

/-- Embeds `MeshObject::get_tex_coords_count`. -/
def get_tex_coords_count (o : MeshObject) : Nat :=
  o.impl.m_tess.get_uv_vertex_count

/-- Embeds `MeshObject::reserve_triangles`. -/
def reserve_triangles (o : MeshObject) (_count : Nat) : MeshObject :=
  o

/-- Embeds `MeshObject::push_triangle`. -/
def push_triangle (o : MeshObject) (triangle : Triangle) : Nat × MeshObject :=
  let index := o.impl.m_tess.m_primitives.length
  (index,
    { o with impl := { o.impl with
        m_tess := { o.impl.m_tess with
          m_primitives := o.impl.m_tess.m_primitives ++ [triangle] } } })

/-- Embeds `MeshObject::get_triangle_count`. -/
def get_triangle_count (o : MeshObject) : Nat :=
  o.impl.m_tess.m_primitives.length

/-- Embeds `MeshObject::get_triangle`. -/
def get_triangle (o : MeshObject) (index : Nat) : Option Triangle :=
  o.impl.m_tess.m_primitives[index]?

/-- Embeds `MeshObject::set_motion_segment_count`. -/
def set_motion_segment_count (o : MeshObject) (count : Nat) : MeshObject :=
  { o with impl := { o.impl with m_tess := o.impl.m_tess.set_motion_segment_count count } }

/-- Embeds `MeshObject::get_motion_segment_count`. -/
def get_motion_segment_count (o : MeshObject) : Nat :=
  o.impl.m_tess.get_motion_segment_count

/-- Embeds `MeshObject::set_vertex_pose`. -/
def set_vertex_pose (o : MeshObject) (vertex_index motion_segment_index : Nat)
    (v : GVector3) : Except PoseError Unit × MeshObject :=
  let r := o.impl.m_tess.set_vertex_pose vertex_index motion_segment_index v
  (r.1, { o with impl := { o.impl with m_tess := r.2 } })

/-- Embeds `MeshObject::get_vertex_pose`. -/
def get_vertex_pose (o : MeshObject) (vertex_index motion_segment_index : Nat) :
    Except PoseError GVector3 :=
  o.impl.m_tess.get_vertex_pose vertex_index motion_segment_index

/-- Embeds `MeshObject::clear_vertex_poses`. -/
def clear_vertex_poses (o : MeshObject) : MeshObject :=
  { o with impl := { o.impl with m_tess := o.impl.m_tess.clear_vertex_poses } }

/-- Embeds `MeshObject::reserve_material_slots`. -/
def reserve_material_slots (o : MeshObject) (_count : Nat) : MeshObject :=
  o

/-- Embeds `MeshObject::push_material_slot`. -/
def push_material_slot (o : MeshObject) (name : String) : Nat × MeshObject :=
  let index := o.impl.m_material_slots.length
  (index, { o with impl := { o.impl with m_material_slots := o.impl.m_material_slots ++ [name] } })

/-- Embeds `MeshObject::get_material_slot_count`. -/
def get_material_slot_count (o : MeshObject) : Nat :=
  o.impl.m_material_slots.length

/-- Embeds `MeshObject::get_material_slot`. -/
def get_material_slot (o : MeshObject) (index : Nat) : Option String :=
  o.impl.m_material_slots[index]?

/-- The region kit a caller obtains through `get_region_kit`: the cell the
returned reference names is read in the object and accessed. -/
def region_kit_of (o : MeshObject) : Option RegionKit :=
  let r := o.get_region_kit
  match r.2.impl.deref_lazy_region_kit r.1 with
  | some cell => (cell.access r.2.impl.deref_region_kit).1
  | none => none

/-- The bounding box a caller obtains from the region of the object. -/
def region_compute_local_bbox (o : MeshObject) : Option GAABB3 :=
  o.impl.m_region.compute_local_bbox o.impl

/-- The object after a run of `push_vertex` calls, one per element of `vs`. -/
def push_vertices (o : MeshObject) (vs : List GVector3) : MeshObject :=
  vs.foldl (fun acc v => (acc.push_vertex v).2) o

/-- The object after a run of `push_material_slot` calls, one per element of
`names`. -/
def push_material_slots (o : MeshObject) (names : List String) : MeshObject :=
  names.foldl (fun acc name => (acc.push_material_slot name).2) o

end MeshObject

/-! ## Runs of calls -/

/-- One call of the public interface of `MeshObject`, with its arguments. -/
inductive Op where
  | reserve_vertices (count : Nat)
  | push_vertex (vertex : GVector3)
  | reserve_vertex_normals (count : Nat)
  | push_vertex_normal (normal : GVector3)
  | push_tex_coords (tex_coords : GVector2)
  | reserve_triangles (count : Nat)
  | push_triangle (triangle : Triangle)
  | set_motion_segment_count (count : Nat)
  | set_vertex_pose (vertex_index motion_segment_index : Nat) (v : GVector3)
  | clear_vertex_poses
  | reserve_material_slots (count : Nat)
  | push_material_slot (name : String)
  | get_region_kit
  | compute_local_bbox
deriving DecidableEq

/-- The object after one call.  A `push_vertex_normal` whose assertion fails
stores nothing, so the object stays as it was before the call. -/
def step (o : MeshObject) : Op → MeshObject
  | .reserve_vertices count => o.reserve_vertices count
  | .push_vertex vertex => (o.push_vertex vertex).2
  | .reserve_vertex_normals count => o.reserve_vertex_normals count
  | .push_vertex_normal normal =>
      match o.push_vertex_normal normal with
      | some r => r.2
      | none => o
  | .push_tex_coords tex_coords => (o.push_tex_coords tex_coords).2
  | .reserve_triangles count => o.reserve_triangles count
  | .push_triangle triangle => (o.push_triangle triangle).2
  | .set_motion_segment_count count => o.set_motion_segment_count count
  | .set_vertex_pose vertex_index motion_segment_index v =>
      (o.set_vertex_pose vertex_index motion_segment_index v).2
  | .clear_vertex_poses => o.clear_vertex_poses
  | .reserve_material_slots count => o.reserve_material_slots count
  | .push_material_slot name => (o.push_material_slot name).2
  | .get_region_kit => o.get_region_kit.2
  | .compute_local_bbox => o

/-- The object after a sequence of calls, first call first. -/
def run (o : MeshObject) (ops : List Op) : MeshObject :=
  ops.foldl step o

/-- The indices of a triangle are all below the counts of the arrays they
point into. -/
def Triangle.in_range (t : Triangle) (o : MeshObject) : Prop :=
  (t.m_v0 < o.get_vertex_count ∧ t.m_v1 < o.get_vertex_count ∧ t.m_v2 < o.get_vertex_count) ∧
  (t.m_n0 < o.get_vertex_normal_count ∧ t.m_n1 < o.get_vertex_normal_count ∧
    t.m_n2 < o.get_vertex_normal_count) ∧
  (t.m_a0 < o.get_tex_coords_count ∧ t.m_a1 < o.get_tex_coords_count ∧
    t.m_a2 < o.get_tex_coords_count) ∧
  t.m_pa < o.get_material_slot_count

instance (t : Triangle) (o : MeshObject) : Decidable (t.in_range o) := by
  unfold Triangle.in_range; infer_instance

/-- Every stored triangle has its indices in range. -/
def triangles_in_range (o : MeshObject) : Prop :=
  ∀ t ∈ o.impl.m_tess.m_primitives, t.in_range o

instance (o : MeshObject) : Decidable (triangles_in_range o) := by
  unfold triangles_in_range; infer_instance

/-- A call is in range in `o` when it is not a `push_triangle`, or it is one
whose triangle has its indices in range in `o`. -/
def Op.in_range (o : MeshObject) : Op → Prop
  | .push_triangle triangle => triangle.in_range o
  | _ => True

instance (o : MeshObject) (op : Op) : Decidable (op.in_range o) := by
  cases op <;> simp only [Op.in_range] <;> infer_instance

/-- Every `push_triangle` of the run passes a triangle whose indices are in
range in the object the call is made on. -/
def pushes_in_range (o : MeshObject) : List Op → Prop
  | [] => True
  | op :: ops => op.in_range o ∧ pushes_in_range (step o op) ops

/-- The points `compute_local_bbox` covers: the vertices, and the pose of every
vertex at every motion segment. -/
def is_bbox_point (o : MeshObject) (q : GVector3) : Prop :=
  q ∈ o.impl.m_tess.m_vertices ∨
    ∃ i j, i < o.get_vertex_count ∧ j < o.get_motion_segment_count ∧
      o.get_vertex_pose i j = .ok q

/-- Box `b` is the tight bounding box of the points of `l`: the invalid box
for no point, otherwise on every axis the min corner is the least and the max
corner the greatest coordinate among the points. -/
def tight (b : GAABB3) (l : List GVector3) : Prop :=
  match b with
  | .invalid => l = []
  | .valid mn mx =>
      ∀ k : Fin 3,
        (∀ q ∈ l, mn.get k ≤ q.get k ∧ q.get k ≤ mx.get k) ∧
        (∃ q ∈ l, q.get k = mn.get k) ∧ (∃ q ∈ l, q.get k = mx.get k)

/-- Modelled from the spec: the type tags of `OSLParamType`, declared in
`renderer/modeling/shadergroup/shaderparamparser.h`, which is not part of the
sources at hand.  `OSLParamTypeUnknown` stands for every tag that has no case
in the switch of `Shader::Impl::Impl`. -/
inductive OSLParamType where
  | OSLParamTypeColor
  | OSLParamTypeFloat
  | OSLParamTypeInt
  | OSLParamTypeNormal
  | OSLParamTypePoint
  | OSLParamTypeString
  | OSLParamTypeVector
  | OSLParamTypeUnknown
deriving DecidableEq

/-- The exception `ExceptionOSLParamParseError`. -/
inductive ExceptionOSLParamParseError where
  | parse_error
deriving DecidableEq

/-- Modelled from the spec: `ShaderParamParser`, declared in
`renderer/modeling/shadergroup/shaderparamparser.h`, which is not part of the
sources at hand.  The parser is taken as a parameter: `create` is the
constructor, which reads the declared type tag from the value string, and each
parse function either yields the parsed values or throws
`ExceptionOSLParamParseError`.  The second argument of `parse_three_values` is
the optional last argument of the call, absent when the call leaves it out. -/
structure ShaderParamParser (σ : Type) where
  create : String → Except ExceptionOSLParamParseError σ
  param_type : σ → OSLParamType
  parse_three_values : σ → Option Bool → Except ExceptionOSLParamParseError (ℚ × ℚ × ℚ)
  parse_one_value_float : σ → Except ExceptionOSLParamParseError ℚ
  parse_one_value_int : σ → Except ExceptionOSLParamParseError Int
  parse_string_value : σ → Except ExceptionOSLParamParseError String

/-- Modelled from the spec: the typed value a shader parameter holds, one kind
per type tag. -/
inductive ShaderParamValue where
  | color (r g b : ℚ)
  | float (val : ℚ)
  | int (val : Int)
  | normal (x y z : ℚ)
  | point (x y z : ℚ)
  | string (val : String)
  | vector (x y z : ℚ)
deriving DecidableEq

/-- Modelled from the spec: `ShaderParam` of
`renderer/modeling/shadergroup/shaderparam.h`, which is not part of the sources
at hand: a named, strongly typed parameter. -/
structure ShaderParam where
  name : String
  value : ShaderParamValue
deriving DecidableEq

namespace ShaderParam

/-- Modelled from the spec: `ShaderParam::create_color_param`. -/
def create_color_param (name : String) (r g b : ℚ) : ShaderParam :=
  ⟨name, .color r g b⟩

/-- Modelled from the spec: `ShaderParam::create_float_param`. -/
def create_float_param (name : String) (val : ℚ) : ShaderParam :=
  ⟨name, .float val⟩

/-- Modelled from the spec: `ShaderParam::create_int_param`. -/
def create_int_param (name : String) (val : Int) : ShaderParam :=
  ⟨name, .int val⟩

/-- Modelled from the spec: `ShaderParam::create_normal_param`. -/
def create_normal_param (name : String) (x y z : ℚ) : ShaderParam :=
  ⟨name, .normal x y z⟩

/-- Modelled from the spec: `ShaderParam::create_point_param`. -/
def create_point_param (name : String) (x y z : ℚ) : ShaderParam :=
  ⟨name, .point x y z⟩

/-- Modelled from the spec: `ShaderParam::create_string_param`. -/
def create_string_param (name : String) (val : String) : ShaderParam :=
  ⟨name, .string val⟩

/-- Modelled from the spec: `ShaderParam::create_vector_param`. -/
def create_vector_param (name : String) (x y z : ℚ) : ShaderParam :=
  ⟨name, .vector x y z⟩

end ShaderParam

/-- Modelled from the spec: `ShaderParamContainer`, the ordered collection of
the parameters a shader owns. -/
abbrev ShaderParamContainer := List ShaderParam

/-- Modelled from the spec: `insert` adds a parameter at the end of the
collection. -/
def ShaderParamContainer.insert (c : ShaderParamContainer) (p : ShaderParam) :
    ShaderParamContainer :=
  c ++ [p]

/-- Members of `Shader::Impl`. -/
structure ShaderImpl where
  m_type : String
  m_shader : String
  m_params : ShaderParamContainer

/-- The body of the `try` block of `Shader::Impl::Impl` for one dictionary
entry: the parser is built from the value, the switch on its type tag parses
the value and inserts the typed parameter; an unknown tag inserts nothing.  An
error is the exception thrown by the parser. -/
def ShaderImpl.try_entry {σ : Type} (P : ShaderParamParser σ) (m_params : ShaderParamContainer)
    (name value : String) : Except ExceptionOSLParamParseError ShaderParamContainer :=
  match P.create value with
  | .error e => .error e
  | .ok parser =>
    match P.param_type parser with
    | .OSLParamTypeColor =>
        match P.parse_three_values parser (some true) with
        | .error e => .error e
        | .ok (r, g, b) => .ok (m_params.insert (ShaderParam.create_color_param name r g b))
    | .OSLParamTypeFloat =>
        match P.parse_one_value_float parser with
        | .error e => .error e
        | .ok val => .ok (m_params.insert (ShaderParam.create_float_param name val))
    | .OSLParamTypeInt =>
        match P.parse_one_value_int parser with
        | .error e => .error e
        | .ok val => .ok (m_params.insert (ShaderParam.create_int_param name val))
    | .OSLParamTypeNormal =>
        match P.parse_three_values parser none with
        | .error e => .error e
        | .ok (x, y, z) => .ok (m_params.insert (ShaderParam.create_normal_param name x y z))
    | .OSLParamTypePoint =>
        match P.parse_three_values parser none with
        | .error e => .error e
        | .ok (x, y, z) => .ok (m_params.insert (ShaderParam.create_point_param name x y z))
    | .OSLParamTypeString =>
        match P.parse_string_value parser with
        | .error e => .error e
        | .ok val => .ok (m_params.insert (ShaderParam.create_string_param name val))
    | .OSLParamTypeVector =>
        match P.parse_three_values parser none with
        | .error e => .error e
        | .ok (x, y, z) => .ok (m_params.insert (ShaderParam.create_vector_param name x y z))
    | .OSLParamTypeUnknown => .ok m_params

/-- One iteration of the loop of `Shader::Impl::Impl`: the `try` block, and the
`catch` handler that keeps the collection as it was. -/
def ShaderImpl.loop_body {σ : Type} (P : ShaderParamParser σ) (m_params : ShaderParamContainer)
    (entry : String × String) : ShaderParamContainer :=
  match ShaderImpl.try_entry P m_params entry.1 entry.2 with
  | .ok m_params2 => m_params2
  | .error _ => m_params

/-- Embeds `Shader::Impl::Impl`. -/
def ShaderImpl.new {σ : Type} (P : ShaderParamParser σ) (type shader _layer : String)
    (params : List (String × String)) : ShaderImpl :=
  { m_type := type
    m_shader := shader
    m_params := params.foldl (ShaderImpl.loop_body P) [] }

/-- The class `Shader`: the entity name and the implementation. -/
structure Shader where
  name : String
  impl : ShaderImpl

namespace Shader

/-- Embeds `Shader::Shader`: the layer name is used as the entity name. -/
def new {σ : Type} (P : ShaderParamParser σ) (type shader layer : String)
    (params : List (String × String)) : Shader :=
  { name := layer, impl := ShaderImpl.new P type shader layer params }

/-- Embeds `Shader::get_type`. -/
def get_type (sh : Shader) : String :=
  sh.impl.m_type

/-- Embeds `Shader::get_shader`. -/
def get_shader (sh : Shader) : String :=
  sh.impl.m_shader

/-- Embeds `Shader::get_layer`. -/
def get_layer (sh : Shader) : String :=
  sh.name

/-- Embeds `Shader::shader_params`. -/
def shader_params (sh : Shader) : ShaderParamContainer :=
  sh.impl.m_params

end Shader

/-- The typed parameter of a dictionary entry, following the words of the
specification: the parameter named after the key, of the kind of the declared
type tag, holding the parsed values, when the tag is known and the value
parses; none otherwise. -/
def entry_param {σ : Type} (P : ShaderParamParser σ) (entry : String × String) :
    Option ShaderParam :=
  match P.create entry.2 with
  | .error _ => none
  | .ok parser =>
    match P.param_type parser with
    | .OSLParamTypeColor =>
        (P.parse_three_values parser (some true)).toOption.map
          fun v => ⟨entry.1, .color v.1 v.2.1 v.2.2⟩
    | .OSLParamTypeFloat =>
        (P.parse_one_value_float parser).toOption.map fun v => ⟨entry.1, .float v⟩
    | .OSLParamTypeInt =>
        (P.parse_one_value_int parser).toOption.map fun v => ⟨entry.1, .int v⟩
    | .OSLParamTypeNormal =>
        (P.parse_three_values parser none).toOption.map
          fun v => ⟨entry.1, .normal v.1 v.2.1 v.2.2⟩
    | .OSLParamTypePoint =>
        (P.parse_three_values parser none).toOption.map
          fun v => ⟨entry.1, .point v.1 v.2.1 v.2.2⟩
    | .OSLParamTypeString =>
        (P.parse_string_value parser).toOption.map fun v => ⟨entry.1, .string v⟩
    | .OSLParamTypeVector =>
        (P.parse_three_values parser none).toOption.map
          fun v => ⟨entry.1, .vector v.1 v.2.1 v.2.2⟩
    | .OSLParamTypeUnknown => none

/-- An example parser for value strings of the form `<tag> <values>`, defined on
the strings used in the examples below; every other string has an unknown
tag. -/
def sample_parsing : ShaderParamParser String where
  create := fun value => .ok value
  param_type := fun value =>
    if value = "color 0.1 0.2 0.3" then .OSLParamTypeColor
    else if value = "float 0.5" then .OSLParamTypeFloat
    else if value = "float abc" then .OSLParamTypeFloat
    else if value = "string wood" then .OSLParamTypeString
    else .OSLParamTypeUnknown
  parse_three_values := fun value _ =>
    if value = "color 0.1 0.2 0.3" then .ok (1 / 10, 2 / 10, 3 / 10)
    else .error .parse_error
  parse_one_value_float := fun value =>
    if value = "float 0.5" then .ok (1 / 2) else .error .parse_error
  parse_one_value_int := fun _ => .error .parse_error
  parse_string_value := fun value =>
    if value = "string wood" then .ok "wood" else .error .parse_error

/-- The value of a dictionary entry fails: the parser cannot be built from it,
or its type tag is unknown, or the parse function called for its tag throws. -/
def entry_fails {σ : Type} (P : ShaderParamParser σ) (value : String) : Prop :=
  match P.create value with
  | .error _ => True
  | .ok parser =>
    match P.param_type parser with
    | .OSLParamTypeColor => ∃ e, P.parse_three_values parser (some true) = .error e
    | .OSLParamTypeFloat => ∃ e, P.parse_one_value_float parser = .error e
    | .OSLParamTypeInt => ∃ e, P.parse_one_value_int parser = .error e
    | .OSLParamTypeNormal => ∃ e, P.parse_three_values parser none = .error e
    | .OSLParamTypePoint => ∃ e, P.parse_three_values parser none = .error e
    | .OSLParamTypeString => ∃ e, P.parse_string_value parser = .error e
    | .OSLParamTypeVector => ∃ e, P.parse_three_values parser none = .error e
    | .OSLParamTypeUnknown => True

/-- A call received by the shading system: the registration of a parameter, or
the declaration of a shader layer with its usage, shader name and layer name. -/
inductive ShadingCall where
  | parameter (p : ShaderParam)
  | shader (usage shader layer : String)
deriving DecidableEq

/-- Modelled from the spec: the external shading system `OSL::ShadingSystem`,
whose code is not part of the sources at hand.  It is taken as a parameter: its
answer to a call, success or failure, may depend on the calls made before. -/
structure ShadingSystem where
  answer : List ShadingCall → ShadingCall → Bool

/-- Modelled from the spec: `ShaderParam::add` asks the parameter to register
itself with the shading system.  The result is the answer and the calls the
shading system has received so far. -/
def ShaderParam.add (p : ShaderParam) (sys : ShadingSystem) (calls : List ShadingCall) :
    Bool × List ShadingCall :=
  (sys.answer calls (.parameter p), calls ++ [.parameter p])

/-- The loop of `Shader::add` over the owned parameters: false as soon as one
parameter fails to register. -/
def Shader.add_params (sys : ShadingSystem) :
    List ShaderParam → List ShadingCall → Bool × List ShadingCall
  | [], calls => (true, calls)
  | p :: ps, calls =>
      let r := p.add sys calls
      if !r.1 then (false, r.2) else Shader.add_params sys ps r.2

/-- Embeds `Shader::add`.  The result is the returned value and the calls the
shading system has received so far. -/
def Shader.add (sh : Shader) (sys : ShadingSystem) (calls : List ShadingCall) :
    Bool × List ShadingCall :=
  let r := Shader.add_params sys sh.impl.m_params calls
  if !r.1 then (false, r.2)
  else
    let c := ShadingCall.shader "surface" sh.get_shader sh.get_layer
    if !(sys.answer r.2 c) then (false, r.2 ++ [c]) else (true, r.2 ++ [c])

/-- Every parameter of the list registers successfully, one after the other,
with a shading system that has received `calls` before. -/
def all_register (sys : ShadingSystem) : List ShaderParam → List ShadingCall → Prop
  | [], _ => True
  | p :: ps, calls =>
      sys.answer calls (.parameter p) = true ∧ all_register sys ps (calls ++ [.parameter p])

/-- Modelled from the spec: `SearchPaths` of
`foundation/utility/searchpaths.h`, which is not part of the sources at hand:
the resolver, with its one function `qualify` from a file name to a path. -/
structure SearchPaths where
  qualify : String → String

/-- The files that can be opened for reading: the content of the file at a
path, or nothing when the file cannot be opened. -/
abbrev FileSystem := String → Option (List Char)

/-- The function `std::getline` on the characters left in the stream: the line
read, the characters left after it, and whether the end of the file was
reached.  The newline that ends the line is taken out of the stream and left
out of the line. -/
def getline : List Char → List Char × List Char × Bool
  | [] => ([], [], true)
  | c :: rest =>
      if c = '\n' then ([], rest, false)
      else
        let r := getline rest
        (c :: r.1, r.2.1, r.2.2)

/-- The function `std::string::find` from position 0: the first position at
which `pat` occurs in `s`, or nothing (`npos`). -/
def string_find (pat : List Char) : List Char → Option Nat
  | [] => if pat.isPrefixOf [] then some 0 else none
  | c :: rest =>
      if pat.isPrefixOf (c :: rest) then some 0
      else (string_find pat rest).map (· + 1)

/-- The text `emission` between double quotes. -/
def quoted_emission : List Char := "\"emission\"".toList

/-- The text `transparent` between double quotes. -/
def quoted_transparent : List Char := "\"transparent\"".toList

/-- The loop of `Shader::get_shader_info` over the open file, given the
characters left, the end-of-file flag of the stream and the two results so
far.  The first argument bounds the number of iterations; the result is
nothing when the bound is reached before the loop ends. -/
def scan_loop : Nat → List Char → Bool → Bool → Bool → Option (Bool × Bool)
  | 0, _, _, _, _ => none
  | fuel + 1, chars, eof, has_emission, has_transparency =>
      if eof then some (has_emission, has_transparency)
      else
        let r := getline chars
        let has_emission2 :=
          if (string_find quoted_emission r.1).isSome then true else has_emission
        let has_transparency2 :=
          if (string_find quoted_transparent r.1).isSome then true else has_transparency
        if has_emission2 && has_transparency2 then some (has_emission2, has_transparency2)
        else scan_loop fuel r.2.1 r.2.2 has_emission2 has_transparency2

/-- Embeds `Shader::get_shader_info`: the pair `has_emission`,
`has_transparency`.  The loop is given two iterations more than the file has
characters. -/
def Shader.get_shader_info (sh : Shader) (searchpaths : SearchPaths) (fs : FileSystem) :
    Option (Bool × Bool) :=
  let filename := searchpaths.qualify (sh.get_shader ++ ".oso")
  match fs filename with
  | none => some (false, false)
  | some content => scan_loop (content.length + 2) content false false false

/-- The lines of a text: the text cut at every newline. -/
def file_lines : List Char → List (List Char)
  | [] => [[]]
  | c :: rest =>
      if c = '\n' then [] :: file_lines rest
      else
        match file_lines rest with
        | [] => [[c]]
        | line :: lines => (c :: line) :: lines

end renderer

namespace foundation

/-! ## Distance functions

A shallow embedding of `foundation/math/distance.h`, over exact arithmetic.
-/

/-- Modelled from the spec: `Vector<T, N>` of `foundation/math/vector.h`, which
is not part of the sources at hand: `N` scalars, read with `operator[]`.
Subtraction is componentwise. -/
abbrev Vector (N : Nat) := Fin N → ℚ

/-- Modelled from the spec: `dot` of `foundation/math/vector.h`, the sum of the
products of the components. -/
def dot {N : Nat} (u v : Vector N) : ℚ :=
  ∑ i, u i * v i

/-- Modelled from the spec: `square_norm` of `foundation/math/vector.h`. -/
def square_norm {N : Nat} (v : Vector N) : ℚ :=
  dot v v

/-- Modelled from the spec: `is_normalized` of `foundation/math/vector.h`; over
exact arithmetic a vector is unit-length when its square norm is one. -/
def is_normalized {N : Nat} (v : Vector N) : Bool :=
  decide (square_norm v = 1)

/-- Modelled from the spec: `square` of `foundation/math/scalar.h`. -/
def square (x : ℚ) : ℚ :=
  x * x

/-- Modelled from the spec: `saturate` of `foundation/math/scalar.h`, which
clamps a scalar to the interval from 0 to 1. -/
def saturate (x : ℚ) : ℚ :=
  if x < 0 then 0 else if x > 1 then 1 else x

/-- Modelled from the spec: `AABB<T, N>` of `foundation/math/aabb.h`, read
through its members `min` and `max`. -/
structure AABB (N : Nat) where
  min : Vector N
  max : Vector N

/-- Embeds `square_distance` between two points. -/
def square_distance {N : Nat} (a b : Vector N) : ℚ :=
  square_norm (b - a)

/-- Embeds `square_distance_point_line`; `none` is the failed assertion
`is_normalized(v)`. -/
def square_distance_point_line {N : Nat} (point a v : Vector N) : Option ℚ :=
  if is_normalized v then
    let u : Vector N := point - a
    let d : Vector N := u - dot u v • v
    some (square_norm d)
  else
    none

/-- Embeds `square_distance_point_segment`; `none` is the failed assertion
`square_norm(b - a) > 0`. -/
def square_distance_point_segment {N : Nat} (point a b : Vector N) : Option ℚ :=
  if square_norm (b - a) > 0 then
    let u : Vector N := point - a
    let v : Vector N := b - a
    let s : ℚ := saturate (dot u v / square_norm v)
    let d : Vector N := u - s • v
    some (square_norm d)
  else
    none

/-- Embeds `square_distance` between a point and a box: the loop over the
axes, with the running sum `d`. -/
def square_distance_point_aabb {N : Nat} (p : Vector N) (bbox : AABB N) : ℚ :=
  (List.finRange N).foldl
    (fun d i =>
      if p i < bbox.min i then d + square (bbox.min i - p i)
      else if p i > bbox.max i then d + square (bbox.max i - p i)
      else d)
    0

/-- Embeds `square_distance` between a box and a point. -/
def square_distance_aabb_point {N : Nat} (bbox : AABB N) (p : Vector N) : ℚ :=
  square_distance_point_aabb p bbox

/-- The componentwise clamp of a point into a box. -/
def clamp_to_box {N : Nat} (p : Vector N) (bbox : AABB N) : Vector N :=
  fun i => max (bbox.min i) (min (p i) (bbox.max i))

/-- The point is inside the box. -/
def inside {N : Nat} (p : Vector N) (bbox : AABB N) : Prop :=
  ∀ i, bbox.min i ≤ p i ∧ p i ≤ bbox.max i

/-- The point of the line through `a` and `a + v` at abscissa `t`. -/
def point_at {N : Nat} (a v : Vector N) (t : ℚ) : Vector N :=
  a + t • v

/-! ## Paths

A shallow embedding of `foundation/utility/path.h`.  A path is its string; the
files on disk are given by the predicate that tells whether a path exists; a
`size_t` has `w` bits.
-/

/-- The loop of `find_next_available_path`, entered with the current `value`.
When `value` has wrapped to 0 the loop is left and the path numbered 1 is
returned.  The first argument bounds the number of iterations; the result is
nothing when the bound is reached before the loop ends.  The function
`get_numbered_string` of `foundation/utility/string.h`, which is not part of
the sources at hand, is a parameter. -/
def find_next_loop (w : Nat) (get_numbered_string : String → Nat → String)
    (exists_on_disk : String → Bool) (path : String) : Nat → Nat → Option String
  | 0, _ => none
  | fuel + 1, value =>
      if value = 0 then some (get_numbered_string path 1)
      else
        let next := get_numbered_string path value
        if !exists_on_disk next then some next
        else find_next_loop w get_numbered_string exists_on_disk path fuel
          ((value + 1) % 2 ^ w)

/-- Embeds `find_next_available_path`: the loop starts at value 1 and is given
as many iterations as a `size_t` has values. -/
def find_next_available_path (w : Nat) (get_numbered_string : String → Nat → String)
    (exists_on_disk : String → Bool) (path : String) : Option String :=
  find_next_loop w get_numbered_string exists_on_disk path (2 ^ w) (1 % 2 ^ w)

end foundation

namespace renderer

/-! ## Properties -/

theorem push_vertices_vertices (o : MeshObject) (vs : List GVector3) :
    (o.push_vertices vs).impl.m_tess.m_vertices = o.impl.m_tess.m_vertices ++ vs := by
  induction vs generalizing o with
  | nil => simp [MeshObject.push_vertices]
  | cons v vs ih =>
      have h := ih (o.push_vertex v).2
      simp only [MeshObject.push_vertices, List.foldl_cons] at h ⊢
      rw [h]
      simp [MeshObject.push_vertex]

theorem push_material_slots_slots (o : MeshObject) (names : List String) :
    (o.push_material_slots names).impl.m_material_slots = o.impl.m_material_slots ++ names := by
  induction names generalizing o with
  | nil => simp [MeshObject.push_material_slots]
  | cons v vs ih =>
      have h := ih (o.push_material_slot v).2
      simp only [MeshObject.push_material_slots, List.foldl_cons] at h ⊢
      rw [h]
      simp [MeshObject.push_material_slot]

/-- C1: after pushing any sequence of vertices onto a fresh mesh object,
`get_vertex_count` is the number of pushes and `get_vertex i` is the i-th pushed
vertex for every `i` below the count; the same holds for material slot names
with `push_material_slot`, `get_material_slot_count` and `get_material_slot`. -/
theorem push_sequence_count_and_elements (vs : List GVector3) (names : List String) :
    (MeshObject.create.push_vertices vs).get_vertex_count = vs.length ∧
    (∀ i : Fin vs.length,
      (MeshObject.create.push_vertices vs).get_vertex i = some (vs.get i)) ∧
    (MeshObject.create.push_material_slots names).get_material_slot_count = names.length ∧
    (∀ i : Fin names.length,
      (MeshObject.create.push_material_slots names).get_material_slot i
        = some (names.get i)) := by
  have hv : (MeshObject.create.push_vertices vs).impl.m_tess.m_vertices = vs := by
    rw [push_vertices_vertices]; rfl
  have hm : (MeshObject.create.push_material_slots names).impl.m_material_slots = names := by
    rw [push_material_slots_slots]; rfl
  refine ⟨?_, ?_, ?_, ?_⟩
  · simp [MeshObject.get_vertex_count, hv]
  · intro i
    simp [MeshObject.get_vertex, hv]
  · simp [MeshObject.get_material_slot_count, hm]
  · intro i
    simp [MeshObject.get_material_slot, hm]

/-- C2, counterexample: on a fresh mesh object, `push_vertex_normal` of the
vector (2, 0, 0), which is not unit-length, trips the assertion and returns no
index. -/
theorem push_vertex_normal_not_unit_fails :
    MeshObject.create.push_vertex_normal ⟨2, 0, 0⟩ = none := by
  simp [MeshObject.push_vertex_normal, is_normalized, square_norm]
  norm_num

/-- C2, amended: in every state, `push_vertex`, `push_triangle` and
`push_material_slot` return the count before the call, the count after the call
is the returned value plus one, and the getter at the returned index yields the
pushed value; `push_vertex_normal` does the same when the normal passes the
assertion `is_normalized`, and returns nothing when it does not. -/
theorem push_returns_new_index (o : MeshObject) (vertex normal : GVector3)
    (triangle : Triangle) (name : String) :
    ((o.push_vertex vertex).1 = o.get_vertex_count ∧
      (o.push_vertex vertex).2.get_vertex_count = (o.push_vertex vertex).1 + 1 ∧
      (o.push_vertex vertex).2.get_vertex (o.push_vertex vertex).1 = some vertex) ∧
    (if is_normalized normal = true then
      ∃ r, o.push_vertex_normal normal = some r ∧
        r.1 = o.get_vertex_normal_count ∧
        r.2.get_vertex_normal_count = r.1 + 1 ∧
        r.2.get_vertex_normal r.1 = some normal
     else o.push_vertex_normal normal = none) ∧
    ((o.push_triangle triangle).1 = o.get_triangle_count ∧
      (o.push_triangle triangle).2.get_triangle_count = (o.push_triangle triangle).1 + 1 ∧
      (o.push_triangle triangle).2.get_triangle (o.push_triangle triangle).1
        = some triangle) ∧
    ((o.push_material_slot name).1 = o.get_material_slot_count ∧
      (o.push_material_slot name).2.get_material_slot_count
        = (o.push_material_slot name).1 + 1 ∧
      (o.push_material_slot name).2.get_material_slot (o.push_material_slot name).1
        = some name) := by
  refine ⟨?_, ?_, ?_, ?_⟩
  · simp [MeshObject.push_vertex, MeshObject.get_vertex_count, MeshObject.get_vertex]
  · by_cases h : is_normalized normal = true
    · rw [if_pos h]
      simp [MeshObject.push_vertex_normal, h, MeshObject.get_vertex_normal_count,
        MeshObject.get_vertex_normal]
    · rw [if_neg h]
      simp [MeshObject.push_vertex_normal, h]
  · simp [MeshObject.push_triangle, MeshObject.get_triangle_count, MeshObject.get_triangle]
  · simp [MeshObject.push_material_slot, MeshObject.get_material_slot_count,
      MeshObject.get_material_slot]

theorem tight_insert (b : GAABB3) (l : List GVector3) (p : GVector3) (h : tight b l) :
    tight (b.insert p) (l ++ [p]) := by
  cases b with
  | invalid =>
      simp only [tight] at h
      subst h
      intro k
      simp [GAABB3.insert]
  | valid mn mx =>
      intro k
      obtain ⟨hb, ⟨q1, hq1, e1⟩, ⟨q2, hq2, e2⟩⟩ := h k
      have hmn : (GVector3.mk (min mn.x p.x) (min mn.y p.y) (min mn.z p.z)).get k
          = min (mn.get k) (p.get k) := by
        fin_cases k <;> rfl
      have hmx : (GVector3.mk (max mx.x p.x) (max mx.y p.y) (max mx.z p.z)).get k
          = max (mx.get k) (p.get k) := by
        fin_cases k <;> rfl
      rw [hmn, hmx]
      refine ⟨?_, ?_, ?_⟩
      · intro q hq
        rcases List.mem_append.1 hq with hq | hq
        · exact ⟨le_trans (min_le_left _ _) (hb q hq).1, le_trans (hb q hq).2 (le_max_left _ _)⟩
        · simp at hq; subst hq
          exact ⟨min_le_right _ _, le_max_right _ _⟩
      · rcases le_total (mn.get k) (p.get k) with hle | hle
        · exact ⟨q1, by simp [hq1], by rw [min_eq_left hle, e1]⟩
        · exact ⟨p, by simp, by rw [min_eq_right hle]⟩
      · rcases le_total (mx.get k) (p.get k) with hle | hle
        · exact ⟨p, by simp, by rw [max_eq_right hle]⟩
        · exact ⟨q2, by simp [hq2], by rw [max_eq_left hle, e2]⟩

theorem tight_foldl (l : List GVector3) :
    ∀ (b : GAABB3) (l0 : List GVector3), tight b l0 →
      tight (l.foldl GAABB3.insert b) (l0 ++ l) := by
  induction l with
  | nil => intro b l0 h; simpa using h
  | cons p l ih =>
      intro b l0 h
      have := ih (b.insert p) (l0 ++ [p]) (tight_insert b l0 p h)
      simpa using this

theorem compute_local_bbox_eq (t : StaticTriangleTess) :
    t.compute_local_bbox = (t.m_vertices ++ t.pose_samples).foldl GAABB3.insert .invalid := by
  unfold StaticTriangleTess.compute_local_bbox
  by_cases h : t.m_motion_segment_count > 0
  · simp [h]
  · have h0 : t.m_motion_segment_count = 0 := by omega
    have hp : t.pose_samples = [] := by
      simp [StaticTriangleTess.pose_samples, h0, List.flatMap_eq_nil_iff]
    simp [h0, hp]

theorem mem_pose_samples (t : StaticTriangleTess) (q : GVector3) :
    q ∈ t.pose_samples ↔ ∃ i j, i < t.m_vertices.length ∧ j < t.m_motion_segment_count ∧
      t.get_vertex_pose i j = .ok q := by
  simp only [StaticTriangleTess.pose_samples, List.mem_flatMap, List.mem_map, List.mem_range,
    StaticTriangleTess.get_vertex_pose]
  constructor
  · rintro ⟨i, hi, j, hj, e⟩
    refine ⟨i, j, hi, hj, ?_⟩
    rw [if_neg (by omega)]
    rw [e]
  · rintro ⟨i, j, hi, hj, e⟩
    rw [if_neg (by omega)] at e
    exact ⟨i, hi, j, hj, by injection e⟩

theorem step_frame (o : MeshObject) (op : Op) :
    (step o op).impl.m_region = o.impl.m_region ∧
    (step o op).impl.m_region_kit = o.impl.m_region_kit ∧
    (step o op).impl.m_lazy_region_kit = o.impl.m_lazy_region_kit := by
  cases op <;>
    simp [step, MeshObject.reserve_vertices, MeshObject.push_vertex,
      MeshObject.reserve_vertex_normals, MeshObject.push_tex_coords,
      MeshObject.reserve_triangles, MeshObject.push_triangle,
      MeshObject.set_motion_segment_count, MeshObject.set_vertex_pose,
      MeshObject.clear_vertex_poses, MeshObject.reserve_material_slots,
      MeshObject.push_material_slot, MeshObject.get_region_kit]
  case push_vertex_normal normal =>
    by_cases h : is_normalized normal = true <;> simp [MeshObject.push_vertex_normal, h]

theorem run_frame (ops : List Op) : ∀ o : MeshObject,
    (run o ops).impl.m_region = o.impl.m_region ∧
    (run o ops).impl.m_region_kit = o.impl.m_region_kit ∧
    (run o ops).impl.m_lazy_region_kit = o.impl.m_lazy_region_kit := by
  induction ops with
  | nil => intro o; simp [run]
  | cons op ops ih =>
      intro o
      obtain ⟨h1, h2, h3⟩ := ih (step o op)
      obtain ⟨g1, g2, g3⟩ := step_frame o op
      simp only [run, List.foldl_cons] at h1 h2 h3 ⊢
      exact ⟨h1.trans g1, h2.trans g2, h3.trans g3⟩

theorem region_bbox_of_run (ops : List Op) :
    (run MeshObject.create ops).region_compute_local_bbox
      = some (run MeshObject.create ops).impl.m_tess.compute_local_bbox := by
  have h := (run_frame ops MeshObject.create).1
  simp only [MeshObject.region_compute_local_bbox, MeshRegion.compute_local_bbox, h]
  rfl

/-- C3: for every mesh object with at least one vertex, `compute_local_bbox` of
the object and of its region return the same valid box, and on every axis the
min corner is the least and the max corner the greatest coordinate over the
vertices and, when there are motion segments, the poses of every vertex. -/
theorem compute_local_bbox_is_tight (ops : List Op)
    (h : 0 < (run MeshObject.create ops).get_vertex_count) :
    ∃ mn mx,
      (run MeshObject.create ops).compute_local_bbox = .valid mn mx ∧
      (run MeshObject.create ops).region_compute_local_bbox = some (.valid mn mx) ∧
      ∀ k : Fin 3,
        (∀ q, is_bbox_point (run MeshObject.create ops) q →
          mn.get k ≤ q.get k ∧ q.get k ≤ mx.get k) ∧
        (∃ q, is_bbox_point (run MeshObject.create ops) q ∧ q.get k = mn.get k) ∧
        (∃ q, is_bbox_point (run MeshObject.create ops) q ∧ q.get k = mx.get k) := by
  generalize ho : run MeshObject.create ops = o at h
  have hr := region_bbox_of_run ops
  rw [ho] at hr
  have ht := tight_foldl (o.impl.m_tess.m_vertices ++ o.impl.m_tess.pose_samples)
    .invalid [] rfl
  rw [← compute_local_bbox_eq, List.nil_append] at ht
  have hmem : ∀ q, q ∈ o.impl.m_tess.m_vertices ++ o.impl.m_tess.pose_samples ↔
      is_bbox_point o q := by
    intro q
    rw [List.mem_append, mem_pose_samples]
    rfl
  cases hb : o.impl.m_tess.compute_local_bbox with
  | invalid =>
      rw [hb] at ht
      simp only [tight, List.append_eq_nil] at ht
      simp [MeshObject.get_vertex_count, ht.1] at h
  | valid mn mx =>
      rw [hb] at ht
      refine ⟨mn, mx, hb, by rw [hr, hb], ?_⟩
      intro k
      obtain ⟨h1, ⟨q1, hq1, e1⟩, ⟨q2, hq2, e2⟩⟩ := ht k
      exact ⟨fun q hq => h1 q ((hmem q).2 hq), ⟨q1, (hmem q1).1 hq1, e1⟩,
        ⟨q2, (hmem q2).1 hq2, e2⟩⟩

/-- C2, witness: on a fresh mesh object, the unit normal (0, 0, 1) is pushed at
index 0, the normal count becomes 1 and the normal at index 0 is (0, 0, 1). -/
theorem push_returns_new_index_witness :
    ∃ r, MeshObject.create.push_vertex_normal ⟨0, 0, 1⟩ = some r ∧
      r.1 = MeshObject.create.get_vertex_normal_count ∧
      r.2.get_vertex_normal_count = r.1 + 1 ∧
      r.2.get_vertex_normal r.1 = some ⟨0, 0, 1⟩ := by
  have h := (push_returns_new_index MeshObject.create ⟨0, 0, 0⟩ ⟨0, 0, 1⟩
    ⟨0, 0, 0, 0, 0, 0, 0, 0, 0, 0⟩ "glass").2.1
  have hn : is_normalized ⟨0, 0, 1⟩ = true := by
    simp [is_normalized, square_norm]
  rw [if_pos hn] at h
  exact h

/-- C3, witness: the vertices (0,0,0) and (1,2,3) give the box from (0,0,0) to
(1,2,3); the vertex (0,0,0) with one pose (5,0,0) gives a box whose max corner
is (5,0,0); and the general statement holds for the first of these objects. -/
theorem compute_local_bbox_is_tight_witness :
    (run MeshObject.create [.push_vertex ⟨0, 0, 0⟩, .push_vertex ⟨1, 2, 3⟩]).compute_local_bbox
      = .valid ⟨0, 0, 0⟩ ⟨1, 2, 3⟩ ∧
    (run MeshObject.create [.push_vertex ⟨0, 0, 0⟩, .set_motion_segment_count 1,
        .set_vertex_pose 0 0 ⟨5, 0, 0⟩]).compute_local_bbox
      = .valid ⟨0, 0, 0⟩ ⟨5, 0, 0⟩ ∧
    0 < (run MeshObject.create
        [.push_vertex ⟨0, 0, 0⟩, .push_vertex ⟨1, 2, 3⟩]).get_vertex_count ∧
    ∃ mn mx,
      (run MeshObject.create
          [.push_vertex ⟨0, 0, 0⟩, .push_vertex ⟨1, 2, 3⟩]).compute_local_bbox
        = .valid mn mx ∧
      (run MeshObject.create
          [.push_vertex ⟨0, 0, 0⟩, .push_vertex ⟨1, 2, 3⟩]).region_compute_local_bbox
        = some (.valid mn mx) ∧
      ∀ k : Fin 3,
        (∀ q, is_bbox_point
            (run MeshObject.create [.push_vertex ⟨0, 0, 0⟩, .push_vertex ⟨1, 2, 3⟩]) q →
          mn.get k ≤ q.get k ∧ q.get k ≤ mx.get k) ∧
        (∃ q, is_bbox_point
            (run MeshObject.create [.push_vertex ⟨0, 0, 0⟩, .push_vertex ⟨1, 2, 3⟩]) q ∧
          q.get k = mn.get k) ∧
        (∃ q, is_bbox_point
            (run MeshObject.create [.push_vertex ⟨0, 0, 0⟩, .push_vertex ⟨1, 2, 3⟩]) q ∧
          q.get k = mx.get k) :=
  ⟨by decide, by decide, by decide,
    compute_local_bbox_is_tight [.push_vertex ⟨0, 0, 0⟩, .push_vertex ⟨1, 2, 3⟩] (by decide)⟩

/-- C4: every call of `get_region_kit` returns a reference to the lazy Region
Kit cell of the object, the member `m_lazy_region_kit`: the reference names
that member and the cell behind it is the one the object holds.  Whatever
calls are made between them, two calls return the same reference, the cell
behind it is the very cell of the first call with the same content, an access
through it yields the same Region Kit, and a call of `get_region_kit` leaves
the object as it was. -/
theorem get_region_kit_same_cell (o : MeshObject) (ops : List Op) :
    o.get_region_kit.1 = Ptr.m_lazy_region_kit ∧
    o.impl.deref_lazy_region_kit o.get_region_kit.1 = some o.impl.m_lazy_region_kit ∧
    (run o.get_region_kit.2 ops).get_region_kit.1 = o.get_region_kit.1 ∧
    (run o.get_region_kit.2 ops).impl.deref_lazy_region_kit
        (run o.get_region_kit.2 ops).get_region_kit.1
      = some o.impl.m_lazy_region_kit ∧
    (run o.get_region_kit.2 ops).impl.deref_lazy_region_kit
        (run o.get_region_kit.2 ops).get_region_kit.1
      = o.impl.deref_lazy_region_kit o.get_region_kit.1 ∧
    (run o.get_region_kit.2 ops).region_kit_of = o.region_kit_of ∧
    o.get_region_kit.2 = o := by
  obtain ⟨_, h2, h3⟩ := run_frame ops o
  have hcell : (run o.get_region_kit.2 ops).impl.deref_lazy_region_kit
      (run o.get_region_kit.2 ops).get_region_kit.1 = some o.impl.m_lazy_region_kit := by
    simp only [MeshObject.get_region_kit, Impl.deref_lazy_region_kit, h3]
  refine ⟨rfl, rfl, rfl, hcell, hcell, ?_, rfl⟩
  have hk : (run o ops).impl.deref_region_kit = o.impl.deref_region_kit := by
    funext p
    cases p <;> simp [Impl.deref_region_kit, h2]
  simp only [MeshObject.region_kit_of, MeshObject.get_region_kit, Impl.deref_lazy_region_kit,
    h3, hk]

/-- C5, counterexample: the region of an object holding the vertex (0,0,0)
answers the box from (0,0,0) to (0,0,0); after (1,2,3) is pushed, the same
region answers the box from (0,0,0) to (1,2,3), not the box of the first
request. -/
theorem region_bbox_not_cached :
    (run MeshObject.create [.push_vertex ⟨0, 0, 0⟩]).region_compute_local_bbox
      = some (.valid ⟨0, 0, 0⟩ ⟨0, 0, 0⟩) ∧
    (run (run MeshObject.create [.push_vertex ⟨0, 0, 0⟩])
        [.push_vertex ⟨1, 2, 3⟩]).region_compute_local_bbox
      = some (.valid ⟨0, 0, 0⟩ ⟨1, 2, 3⟩) ∧
    (run (run MeshObject.create [.push_vertex ⟨0, 0, 0⟩])
        [.push_vertex ⟨1, 2, 3⟩]).region_compute_local_bbox
      ≠ (run MeshObject.create [.push_vertex ⟨0, 0, 0⟩]).region_compute_local_bbox := by
  decide

theorem run_append (o : MeshObject) (ops1 ops2 : List Op) :
    run (run o ops1) ops2 = run o (ops1 ++ ops2) := by
  simp [run, List.foldl_append]

/-- C5, amended: the box of a region is not cached.  A request made on the
region after any calls `ops2` that follow an earlier request is computed from
the tessellation as it is at that request, exactly like the
`compute_local_bbox` of the object. -/
theorem region_bbox_recomputed_on_demand (ops1 ops2 : List Op) :
    (run (run MeshObject.create ops1) ops2).region_compute_local_bbox
      = some (run (run MeshObject.create ops1) ops2).impl.m_tess.compute_local_bbox ∧
    (run (run MeshObject.create ops1) ops2).compute_local_bbox
      = (run (run MeshObject.create ops1) ops2).impl.m_tess.compute_local_bbox := by
  rw [run_append]
  exact ⟨region_bbox_of_run _, rfl⟩

/-- C6, counterexample: a freshly created mesh object, on which
`get_region_kit` was never called, already holds a region kit that is not
empty, and a call of `get_region_kit` does not change the region kit. -/
theorem fresh_region_kit_not_empty :
    MeshObject.create.impl.m_region_kit ≠ [] ∧
    MeshObject.create.get_region_kit.2.impl.m_region_kit
      = MeshObject.create.impl.m_region_kit := by
  decide

/-- C6, amended: the region kit is built when the mesh object is constructed.
A freshly created object holds a region kit with exactly the region of the
object in it, its lazy cell is built from a pointer to that kit, so that an
access of the cell yields the kit without running a factory, and
`get_region_kit` returns the cell and changes nothing in any object. -/
theorem region_kit_built_at_construction :
    MeshObject.create.impl.m_region_kit = [.m_region] ∧
    MeshObject.create.impl.m_lazy_region_kit = .pointer .m_region_kit ∧
    MeshObject.create.region_kit_of = some [.m_region] ∧
    ∀ o : MeshObject, o.get_region_kit = (.m_lazy_region_kit, o) := by
  exact ⟨rfl, rfl, rfl, fun _ => rfl⟩

/-- C7: in every state reached from construction by any sequence of calls, the
region kit obtained through `get_region_kit` holds exactly one region pointer,
that pointer refers to the region of the object, and the tessellation pointer
and the lazy tessellation cell of that region refer to the tessellation the
object owns. -/
theorem region_kit_single_region (ops : List Op) :
    ∃ r region,
      (run MeshObject.create ops).region_kit_of = some [r] ∧
      (run MeshObject.create ops).impl.deref_region r = some region ∧
      (run MeshObject.create ops).impl.deref_tess region.m_tess
        = some (run MeshObject.create ops).impl.m_tess ∧
      region.get_static_triangle_tess = .pointer .m_tess := by
  obtain ⟨h1, h2, h3⟩ := run_frame ops MeshObject.create
  refine ⟨.m_region, (run MeshObject.create ops).impl.m_region, ?_, rfl, ?_, ?_⟩
  · simp only [MeshObject.region_kit_of, MeshObject.get_region_kit,
      Impl.deref_lazy_region_kit, h3]
    have hc : MeshObject.create.impl.m_lazy_region_kit = .pointer .m_region_kit := rfl
    rw [hc]
    simp only [Lazy.access, Impl.deref_region_kit, h2]
    rfl
  · rw [h1]; rfl
  · rw [h1]; rfl

/-- C8: `set_motion_segment_count n` makes the motion segment count `n` and
keeps the vertex count; on an object with vertex index `v` below the vertex
count and segment index `s` below the motion segment count, `set_vertex_pose v
s p` succeeds, `get_vertex_pose v s` then returns `p`, the pose at every other
pair of indices reads as before, and both counts are unchanged. -/
theorem set_vertex_pose_then_get (o : MeshObject) (v s : Nat) (p : GVector3)
    (hv : v < o.get_vertex_count) (hs : s < o.get_motion_segment_count) :
    (∀ o0 : MeshObject, ∀ n : Nat,
      (o0.set_motion_segment_count n).get_motion_segment_count = n ∧
      (o0.set_motion_segment_count n).get_vertex_count = o0.get_vertex_count) ∧
    (o.set_vertex_pose v s p).1 = .ok () ∧
    (o.set_vertex_pose v s p).2.get_vertex_pose v s = .ok p ∧
    (∀ v2 s2, (v2 ≠ v ∨ s2 ≠ s) →
      (o.set_vertex_pose v s p).2.get_vertex_pose v2 s2 = o.get_vertex_pose v2 s2) ∧
    (o.set_vertex_pose v s p).2.get_vertex_count = o.get_vertex_count ∧
    (o.set_vertex_pose v s p).2.get_motion_segment_count = o.get_motion_segment_count := by
  simp only [MeshObject.get_vertex_count, MeshObject.get_motion_segment_count,
    StaticTriangleTess.get_motion_segment_count] at hv hs
  have hc : ¬ (v ≥ o.impl.m_tess.m_vertices.length ∨
      s ≥ o.impl.m_tess.m_motion_segment_count) := by omega
  refine ⟨fun o0 n => ⟨rfl, rfl⟩, ?_, ?_, ?_, ?_, ?_⟩
  · simp [MeshObject.set_vertex_pose, StaticTriangleTess.set_vertex_pose, hc]
  · simp [MeshObject.set_vertex_pose, StaticTriangleTess.set_vertex_pose,
      MeshObject.get_vertex_pose, StaticTriangleTess.get_vertex_pose, hc]
  · intro v2 s2 hne
    have hne2 : ¬ (v2 = v ∧ s2 = s) := by
      rintro ⟨rfl, rfl⟩
      simp at hne
    simp [MeshObject.set_vertex_pose, StaticTriangleTess.set_vertex_pose,
      MeshObject.get_vertex_pose, StaticTriangleTess.get_vertex_pose, hc, hne2]
  · simp [MeshObject.set_vertex_pose, StaticTriangleTess.set_vertex_pose,
      MeshObject.get_vertex_count, hc]
  · simp [MeshObject.set_vertex_pose, StaticTriangleTess.set_vertex_pose,
      MeshObject.get_motion_segment_count, StaticTriangleTess.get_motion_segment_count, hc]

/-- C8, witness: on an object with one vertex and two motion segments,
`set_vertex_pose 0 0 p0` then `set_vertex_pose 0 1 p1` give
`get_vertex_pose 0 0 = p0` and `get_vertex_pose 0 1 = p1`, here with
p0 = (1,1,1) and p1 = (2,2,2). -/
theorem set_vertex_pose_then_get_witness :
    0 < (run MeshObject.create
        [.push_vertex ⟨0, 0, 0⟩, .set_motion_segment_count 2]).get_vertex_count ∧
    1 < (run MeshObject.create
        [.push_vertex ⟨0, 0, 0⟩, .set_motion_segment_count 2,
          .set_vertex_pose 0 0 ⟨1, 1, 1⟩]).get_motion_segment_count ∧
    (run MeshObject.create
        [.push_vertex ⟨0, 0, 0⟩, .set_motion_segment_count 2,
          .set_vertex_pose 0 0 ⟨1, 1, 1⟩, .set_vertex_pose 0 1 ⟨2, 2, 2⟩]).get_vertex_pose 0 0
      = .ok ⟨1, 1, 1⟩ ∧
    (run MeshObject.create
        [.push_vertex ⟨0, 0, 0⟩, .set_motion_segment_count 2,
          .set_vertex_pose 0 0 ⟨1, 1, 1⟩, .set_vertex_pose 0 1 ⟨2, 2, 2⟩]).get_vertex_pose 0 1
      = .ok ⟨2, 2, 2⟩ := by
  have h1 := set_vertex_pose_then_get
    (run MeshObject.create [.push_vertex ⟨0, 0, 0⟩, .set_motion_segment_count 2])
    0 0 ⟨1, 1, 1⟩ (by decide) (by decide)
  have h2 := set_vertex_pose_then_get
    (run MeshObject.create [.push_vertex ⟨0, 0, 0⟩, .set_motion_segment_count 2,
      .set_vertex_pose 0 0 ⟨1, 1, 1⟩])
    0 1 ⟨2, 2, 2⟩ (by decide) (by decide)
  refine ⟨by decide, by decide, ?_, h2.2.2.1⟩
  exact (h2.2.2.2.1 0 0 (Or.inr (by decide))).trans h1.2.2.1

/-- C9: `set_vertex_pose` and `get_vertex_pose` fail with the index-out-of-range
condition exactly when the vertex index is not below the vertex count or the
segment index is not below the motion segment count, and a failed
`set_vertex_pose` leaves the whole object as it was. -/
theorem vertex_pose_fails_iff_out_of_range (o : MeshObject) (v s : Nat) (p : GVector3) :
    ((o.set_vertex_pose v s p).1 = .error .index_out_of_range ↔
      (v ≥ o.get_vertex_count ∨ s ≥ o.get_motion_segment_count)) ∧
    (o.get_vertex_pose v s = .error .index_out_of_range ↔
      (v ≥ o.get_vertex_count ∨ s ≥ o.get_motion_segment_count)) ∧
    ((o.set_vertex_pose v s p).1 = .error .index_out_of_range →
      (o.set_vertex_pose v s p).2 = o) := by
  simp only [MeshObject.get_vertex_count, MeshObject.get_motion_segment_count,
    StaticTriangleTess.get_motion_segment_count, MeshObject.set_vertex_pose,
    StaticTriangleTess.set_vertex_pose, MeshObject.get_vertex_pose,
    StaticTriangleTess.get_vertex_pose]
  by_cases hc : v ≥ o.impl.m_tess.m_vertices.length ∨ s ≥ o.impl.m_tess.m_motion_segment_count
  · simp [hc]
  · simp [hc]

/-- C9, witness: on an object with one vertex and one motion segment,
`set_vertex_pose 1 0 p` and `get_vertex_pose 0 1` fail, and the failed write
leaves the object as it was. -/
theorem vertex_pose_fails_iff_out_of_range_witness :
    ((run MeshObject.create [.push_vertex ⟨0, 0, 0⟩, .set_motion_segment_count 1]).set_vertex_pose
        1 0 ⟨5, 0, 0⟩).1 = .error .index_out_of_range ∧
    ((run MeshObject.create [.push_vertex ⟨0, 0, 0⟩, .set_motion_segment_count 1]).set_vertex_pose
        1 0 ⟨5, 0, 0⟩).2
      = run MeshObject.create [.push_vertex ⟨0, 0, 0⟩, .set_motion_segment_count 1] ∧
    (run MeshObject.create [.push_vertex ⟨0, 0, 0⟩, .set_motion_segment_count 1]).get_vertex_pose
        0 1 = .error .index_out_of_range := by
  have h := vertex_pose_fails_iff_out_of_range
    (run MeshObject.create [.push_vertex ⟨0, 0, 0⟩, .set_motion_segment_count 1]) 1 0 ⟨5, 0, 0⟩
  have h2 := vertex_pose_fails_iff_out_of_range
    (run MeshObject.create [.push_vertex ⟨0, 0, 0⟩, .set_motion_segment_count 1]) 0 1 ⟨5, 0, 0⟩
  have e := h.1.2 (Or.inl (by decide))
  exact ⟨e, h.2.2 e, h2.2.1.2 (Or.inr (by decide))⟩

theorem step_counts_mono (o : MeshObject) (op : Op) :
    o.get_vertex_count ≤ (step o op).get_vertex_count ∧
    o.get_vertex_normal_count ≤ (step o op).get_vertex_normal_count ∧
    o.get_tex_coords_count ≤ (step o op).get_tex_coords_count ∧
    o.get_material_slot_count ≤ (step o op).get_material_slot_count := by
  cases op <;>
    simp [step, MeshObject.reserve_vertices, MeshObject.push_vertex,
      MeshObject.reserve_vertex_normals, MeshObject.push_tex_coords,
      MeshObject.reserve_triangles, MeshObject.push_triangle,
      MeshObject.set_motion_segment_count, MeshObject.set_vertex_pose,
      MeshObject.clear_vertex_poses, MeshObject.reserve_material_slots,
      MeshObject.push_material_slot, MeshObject.get_region_kit,
      MeshObject.get_vertex_count, MeshObject.get_vertex_normal_count,
      MeshObject.get_tex_coords_count, MeshObject.get_material_slot_count,
      StaticTriangleTess.get_uv_vertex_count, StaticTriangleTess.push_uv_vertex,
      StaticTriangleTess.set_motion_segment_count, StaticTriangleTess.clear_vertex_poses]
  case push_vertex_normal normal =>
    by_cases h : is_normalized normal = true <;> simp [MeshObject.push_vertex_normal, h]
  case set_vertex_pose v s p =>
    by_cases hc : o.impl.m_tess.m_vertices.length ≤ v ∨
        o.impl.m_tess.m_motion_segment_count ≤ s <;>
      simp [StaticTriangleTess.set_vertex_pose, hc]

theorem step_primitives (o : MeshObject) (op : Op) :
    (step o op).impl.m_tess.m_primitives
      = match op with
        | .push_triangle triangle => o.impl.m_tess.m_primitives ++ [triangle]
        | _ => o.impl.m_tess.m_primitives := by
  cases op <;>
    simp [step, MeshObject.reserve_vertices, MeshObject.push_vertex,
      MeshObject.reserve_vertex_normals, MeshObject.push_tex_coords,
      MeshObject.reserve_triangles, MeshObject.push_triangle,
      MeshObject.set_motion_segment_count, MeshObject.set_vertex_pose,
      MeshObject.clear_vertex_poses, MeshObject.reserve_material_slots,
      MeshObject.push_material_slot, MeshObject.get_region_kit,
      StaticTriangleTess.push_uv_vertex,
      StaticTriangleTess.set_motion_segment_count, StaticTriangleTess.clear_vertex_poses]
  case push_vertex_normal normal =>
    by_cases h : is_normalized normal = true <;> simp [MeshObject.push_vertex_normal, h]
  case set_vertex_pose v s p =>
    by_cases hc : o.impl.m_tess.m_vertices.length ≤ v ∨
        o.impl.m_tess.m_motion_segment_count ≤ s <;>
      simp [StaticTriangleTess.set_vertex_pose, hc]

theorem in_range_step (t : Triangle) (o : MeshObject) (op : Op) (h : t.in_range o) :
    t.in_range (step o op) := by
  obtain ⟨h1, h2, h3, h4⟩ := step_counts_mono o op
  unfold Triangle.in_range at h ⊢
  omega

theorem triangles_in_range_step (o : MeshObject) (op : Op) (h : triangles_in_range o)
    (hop : op.in_range o) : triangles_in_range (step o op) := by
  intro t ht
  rw [step_primitives] at ht
  cases op
  case push_triangle triangle =>
    simp only [List.mem_append, List.mem_singleton] at ht
    rcases ht with ht | rfl
    · exact in_range_step t o _ (h t ht)
    · exact in_range_step _ o _ hop
  all_goals exact in_range_step t o _ (h t ht)

theorem triangles_in_range_run (ops : List Op) :
    ∀ o : MeshObject, triangles_in_range o → pushes_in_range o ops →
      triangles_in_range (run o ops) := by
  induction ops with
  | nil => intro o h _; simpa [run] using h
  | cons op ops ih =>
      intro o h hp
      have := ih (step o op) (triangles_in_range_step o op h hp.1) hp.2
      simpa [run] using this

/-- C10, counterexample: on a fresh mesh object, which has no vertex,
`push_triangle` of a triangle with vertex indices 0, 1, 2 stores it, and the
stored triangle has indices that are not below the counts. -/
theorem push_triangle_unchecked :
    (run MeshObject.create [.push_triangle ⟨0, 1, 2, 0, 0, 0, 0, 0, 0, 0⟩]).get_triangle 0
      = some ⟨0, 1, 2, 0, 0, 0, 0, 0, 0, 0⟩ ∧
    ¬ triangles_in_range
      (run MeshObject.create [.push_triangle ⟨0, 1, 2, 0, 0, 0, 0, 0, 0, 0⟩]) := by
  decide

/-- C10, amended: `push_triangle` stores the triangle it is given without
checking it.  In every state reached from construction by a sequence of calls
in which every `push_triangle` passes a triangle whose vertex, normal, uv and
material slot indices are below the counts at the time of that call, every
stored triangle has all its indices below the corresponding counts. -/
theorem triangles_in_range_of_pushes_in_range (ops : List Op)
    (h : pushes_in_range MeshObject.create ops) :
    triangles_in_range (run MeshObject.create ops) := by
  refine triangles_in_range_run ops MeshObject.create ?_ h
  intro t ht
  cases ht

/-- C10, witness: three vertices, one normal, one texture coordinate and one
material slot, then a triangle over them. -/
theorem triangles_in_range_of_pushes_in_range_witness :
    pushes_in_range MeshObject.create
      [.push_vertex ⟨0, 0, 0⟩, .push_vertex ⟨1, 0, 0⟩, .push_vertex ⟨0, 1, 0⟩,
        .push_vertex_normal ⟨0, 0, 1⟩, .push_tex_coords ⟨0, 0⟩, .push_material_slot "glass",
        .push_triangle ⟨0, 1, 2, 0, 0, 0, 0, 0, 0, 0⟩] ∧
    triangles_in_range (run MeshObject.create
      [.push_vertex ⟨0, 0, 0⟩, .push_vertex ⟨1, 0, 0⟩, .push_vertex ⟨0, 1, 0⟩,
        .push_vertex_normal ⟨0, 0, 1⟩, .push_tex_coords ⟨0, 0⟩, .push_material_slot "glass",
        .push_triangle ⟨0, 1, 2, 0, 0, 0, 0, 0, 0, 0⟩]) := by
  have hn : is_normalized ⟨0, 0, 1⟩ = true := by
    simp [is_normalized, square_norm]
  have hp : pushes_in_range MeshObject.create
      [.push_vertex ⟨0, 0, 0⟩, .push_vertex ⟨1, 0, 0⟩, .push_vertex ⟨0, 1, 0⟩,
        .push_vertex_normal ⟨0, 0, 1⟩, .push_tex_coords ⟨0, 0⟩, .push_material_slot "glass",
        .push_triangle ⟨0, 1, 2, 0, 0, 0, 0, 0, 0, 0⟩] := by
    simp [pushes_in_range, Op.in_range, step, Triangle.in_range, MeshObject.push_vertex,
      MeshObject.push_vertex_normal, hn, MeshObject.push_tex_coords,
      MeshObject.push_material_slot, MeshObject.get_vertex_count,
      MeshObject.get_vertex_normal_count, MeshObject.get_tex_coords_count,
      MeshObject.get_material_slot_count, StaticTriangleTess.push_uv_vertex,
      StaticTriangleTess.get_uv_vertex_count, MeshObject.create, Impl.new,
      StaticTriangleTess.empty]
  exact ⟨hp, triangles_in_range_of_pushes_in_range _ hp⟩

theorem loop_body_eq {σ : Type} (P : ShaderParamParser σ) (acc : ShaderParamContainer)
    (entry : String × String) :
    ShaderImpl.loop_body P acc entry = acc ++ (entry_param P entry).toList := by
  unfold ShaderImpl.loop_body ShaderImpl.try_entry entry_param
  cases hc : P.create entry.2 with
  | error e => simp
  | ok parser =>
    cases ht : P.param_type parser
    · cases h3 : P.parse_three_values parser (some true) <;>
        simp [ht, h3, Except.toOption, ShaderParamContainer.insert, ShaderParam.create_color_param]
    · cases h3 : P.parse_one_value_float parser <;>
        simp [ht, h3, Except.toOption, ShaderParamContainer.insert, ShaderParam.create_float_param]
    · cases h3 : P.parse_one_value_int parser <;>
        simp [ht, h3, Except.toOption, ShaderParamContainer.insert, ShaderParam.create_int_param]
    · cases h3 : P.parse_three_values parser none <;>
        simp [ht, h3, Except.toOption, ShaderParamContainer.insert, ShaderParam.create_normal_param]
    · cases h3 : P.parse_three_values parser none <;>
        simp [ht, h3, Except.toOption, ShaderParamContainer.insert, ShaderParam.create_point_param]
    · cases h3 : P.parse_string_value parser <;>
        simp [ht, h3, Except.toOption, ShaderParamContainer.insert, ShaderParam.create_string_param]
    · cases h3 : P.parse_three_values parser none <;>
        simp [ht, h3, Except.toOption, ShaderParamContainer.insert, ShaderParam.create_vector_param]
    · simp [ht]

theorem loop_foldl_eq {σ : Type} (P : ShaderParamParser σ) (params : List (String × String)) :
    ∀ acc : ShaderParamContainer,
      params.foldl (ShaderImpl.loop_body P) acc = acc ++ params.filterMap (entry_param P) := by
  induction params with
  | nil => intro acc; simp
  | cons e es ih =>
      intro acc
      rw [List.foldl_cons, ih, loop_body_eq]
      cases h : entry_param P e <;> simp [List.filterMap_cons, h]

theorem shader_params_eq {σ : Type} (P : ShaderParamParser σ) (type shader layer : String)
    (params : List (String × String)) :
    (Shader.new P type shader layer params).shader_params
      = params.filterMap (entry_param P) := by
  simp [Shader.new, Shader.shader_params, ShaderImpl.new, loop_foldl_eq]

theorem entry_param_name {σ : Type} (P : ShaderParamParser σ) (entry : String × String)
    (p : ShaderParam) (h : entry_param P entry = some p) : p.name = entry.1 := by
  unfold entry_param at h
  cases hc : P.create entry.2 with
  | error e => simp [hc] at h
  | ok parser =>
    cases ht : P.param_type parser <;> simp only [hc, ht, Option.map_eq_some'] at h
    all_goals first
      | (obtain ⟨v, _, rfl⟩ := h; rfl)
      | cases h

theorem entry_param_of_fails {σ : Type} (P : ShaderParamParser σ) (name value : String)
    (h : entry_fails P value) : entry_param P (name, value) = none := by
  unfold entry_fails at h
  unfold entry_param
  cases hc : P.create value with
  | error e => simp [hc]
  | ok parser =>
    cases ht : P.param_type parser <;> simp only [hc, ht] at h ⊢
    all_goals first
      | rfl
      | (obtain ⟨e, he⟩ := h; simp [he, Except.toOption])

/-- C12: construction of a shader completes for every dictionary, and the
parameters it owns are, in dictionary order, the typed parameters of the
entries whose tag is known and whose value parses; an entry that has no typed
parameter changes nothing, wherever it stands in the dictionary. -/
theorem shader_params_are_parsed_entries {σ : Type} (P : ShaderParamParser σ)
    (type shader layer : String) (params : List (String × String)) :
    (Shader.new P type shader layer params).shader_params
      = params.filterMap (entry_param P) ∧
    (∀ pre post bad, entry_param P bad = none →
      (Shader.new P type shader layer (pre ++ bad :: post)).shader_params
        = (Shader.new P type shader layer (pre ++ post)).shader_params) := by
  refine ⟨shader_params_eq P type shader layer params, ?_⟩
  intro pre post bad hbad
  simp [shader_params_eq, List.filterMap_append, List.filterMap_cons, hbad]

/-- C13, counterexample: a shader built from a dictionary whose entry `Kd` is
declared float with an unparsable value and whose entry `M` has an unknown type
tag owns no parameter at all, so it carries no parameter named `Kd` or `M`. -/
theorem failed_entry_not_carried :
    (Shader.new sample_parsing "surface" "matte" "layer1"
      [("Kd", "float abc"), ("M", "matrix 1")]).shader_params = [] ∧
    ¬ ∃ p ∈ (Shader.new sample_parsing "surface" "matte" "layer1"
      [("Kd", "float abc"), ("M", "matrix 1")]).shader_params,
        p.name = "Kd" ∨ p.name = "M" := by
  have h : (Shader.new sample_parsing "surface" "matte" "layer1"
      [("Kd", "float abc"), ("M", "matrix 1")]).shader_params = [] := by
    simp [Shader.new, Shader.shader_params, ShaderImpl.new, ShaderImpl.loop_body,
      ShaderImpl.try_entry, sample_parsing]
  rw [h]
  simp

/-- C13, amended: for every dictionary entry whose value fails to parse or
whose type tag is unknown, construction of the shader completes and inserts no
parameter for that entry: the shader owns the same parameters as without the
entry, and none of them bears the name of the entry when no other entry has
that name. -/
theorem failed_entry_inserts_nothing {σ : Type} (P : ShaderParamParser σ)
    (type shader layer : String) (pre post : List (String × String)) (name value : String)
    (h : entry_fails P value) :
    (Shader.new P type shader layer (pre ++ (name, value) :: post)).shader_params
      = (Shader.new P type shader layer (pre ++ post)).shader_params ∧
    ((∀ e ∈ pre ++ post, e.1 ≠ name) →
      ∀ p ∈ (Shader.new P type shader layer (pre ++ (name, value) :: post)).shader_params,
        p.name ≠ name) := by
  have hnone := entry_param_of_fails P name value h
  have heq : (Shader.new P type shader layer (pre ++ (name, value) :: post)).shader_params
      = (Shader.new P type shader layer (pre ++ post)).shader_params := by
    simp [shader_params_eq, List.filterMap_append, List.filterMap_cons, hnone]
  refine ⟨heq, ?_⟩
  intro hne p hp
  rw [heq, shader_params_eq, List.mem_filterMap] at hp
  obtain ⟨e, he, hpe⟩ := hp
  rw [entry_param_name P e p hpe]
  exact hne e he

/-- C13, witness: the entry `Kd` with value `float abc` fails, and the shader
built from the entries `Kd`, `Ks` owns only the parameter of `Ks`. -/
theorem failed_entry_inserts_nothing_witness :
    entry_fails sample_parsing "float abc" ∧
    (Shader.new sample_parsing "surface" "matte" "layer1"
        ([] ++ ("Kd", "float abc") :: [("Ks", "float 0.5")])).shader_params
      = (Shader.new sample_parsing "surface" "matte" "layer1"
        ([] ++ [("Ks", "float 0.5")])).shader_params := by
  have hf : entry_fails sample_parsing "float abc" := by
    simp [entry_fails, sample_parsing]
    exact ⟨.parse_error, trivial⟩
  exact ⟨hf, (failed_entry_inserts_nothing sample_parsing "surface" "matte" "layer1"
    [] [("Ks", "float 0.5")] "Kd" "float abc" hf).1⟩

theorem shader_params_insert {σ : Type} (P : ShaderParamParser σ)
    (type shader layer : String) (pre post : List (String × String)) (entry : String × String)
    (p : ShaderParam) (h : entry_param P entry = some p) :
    (Shader.new P type shader layer (pre ++ entry :: post)).shader_params
      = (Shader.new P type shader layer pre).shader_params
        ++ p :: (Shader.new P type shader layer post).shader_params := by
  simp [shader_params_eq, List.filterMap_append, List.filterMap_cons, h]

/-- C14: for a dictionary entry whose parser is built and whose value parses,
the shader owns, between the parameters of the entries before it and those of
the entries after it, one parameter with the key of the entry as its name, of
the kind of the declared type tag, holding exactly the parsed values in their
parsed order: three values for color, normal, point and vector, one value for
float and int, the string for string. -/
theorem parsed_entry_param {σ : Type} (P : ShaderParamParser σ)
    (type shader layer : String) (pre post : List (String × String)) (name value : String)
    (parser : σ) (hc : P.create value = .ok parser) :
    (∀ r g b, P.param_type parser = .OSLParamTypeColor →
      P.parse_three_values parser (some true) = .ok (r, g, b) →
      (Shader.new P type shader layer (pre ++ (name, value) :: post)).shader_params
        = (Shader.new P type shader layer pre).shader_params
          ++ ⟨name, .color r g b⟩ :: (Shader.new P type shader layer post).shader_params) ∧
    (∀ val, P.param_type parser = .OSLParamTypeFloat →
      P.parse_one_value_float parser = .ok val →
      (Shader.new P type shader layer (pre ++ (name, value) :: post)).shader_params
        = (Shader.new P type shader layer pre).shader_params
          ++ ⟨name, .float val⟩ :: (Shader.new P type shader layer post).shader_params) ∧
    (∀ val, P.param_type parser = .OSLParamTypeInt →
      P.parse_one_value_int parser = .ok val →
      (Shader.new P type shader layer (pre ++ (name, value) :: post)).shader_params
        = (Shader.new P type shader layer pre).shader_params
          ++ ⟨name, .int val⟩ :: (Shader.new P type shader layer post).shader_params) ∧
    (∀ x y z, P.param_type parser = .OSLParamTypeNormal →
      P.parse_three_values parser none = .ok (x, y, z) →
      (Shader.new P type shader layer (pre ++ (name, value) :: post)).shader_params
        = (Shader.new P type shader layer pre).shader_params
          ++ ⟨name, .normal x y z⟩ :: (Shader.new P type shader layer post).shader_params) ∧
    (∀ x y z, P.param_type parser = .OSLParamTypePoint →
      P.parse_three_values parser none = .ok (x, y, z) →
      (Shader.new P type shader layer (pre ++ (name, value) :: post)).shader_params
        = (Shader.new P type shader layer pre).shader_params
          ++ ⟨name, .point x y z⟩ :: (Shader.new P type shader layer post).shader_params) ∧
    (∀ val, P.param_type parser = .OSLParamTypeString →
      P.parse_string_value parser = .ok val →
      (Shader.new P type shader layer (pre ++ (name, value) :: post)).shader_params
        = (Shader.new P type shader layer pre).shader_params
          ++ ⟨name, .string val⟩ :: (Shader.new P type shader layer post).shader_params) ∧
    (∀ x y z, P.param_type parser = .OSLParamTypeVector →
      P.parse_three_values parser none = .ok (x, y, z) →
      (Shader.new P type shader layer (pre ++ (name, value) :: post)).shader_params
        = (Shader.new P type shader layer pre).shader_params
          ++ ⟨name, .vector x y z⟩ :: (Shader.new P type shader layer post).shader_params) := by
  refine ⟨?_, ?_, ?_, ?_, ?_, ?_, ?_⟩
  · intro r g b ht hp
    exact shader_params_insert P type shader layer pre post (name, value) _
      (by simp [entry_param, hc, ht, hp, Except.toOption])
  · intro val ht hp
    exact shader_params_insert P type shader layer pre post (name, value) _
      (by simp [entry_param, hc, ht, hp, Except.toOption])
  · intro val ht hp
    exact shader_params_insert P type shader layer pre post (name, value) _
      (by simp [entry_param, hc, ht, hp, Except.toOption])
  · intro x y z ht hp
    exact shader_params_insert P type shader layer pre post (name, value) _
      (by simp [entry_param, hc, ht, hp, Except.toOption])
  · intro x y z ht hp
    exact shader_params_insert P type shader layer pre post (name, value) _
      (by simp [entry_param, hc, ht, hp, Except.toOption])
  · intro val ht hp
    exact shader_params_insert P type shader layer pre post (name, value) _
      (by simp [entry_param, hc, ht, hp, Except.toOption])
  · intro x y z ht hp
    exact shader_params_insert P type shader layer pre post (name, value) _
      (by simp [entry_param, hc, ht, hp, Except.toOption])

/-- C14, witness: a color entry `Cs` whose value parses to 0.1, 0.2, 0.3 yields
the color parameter `Cs` with the components 0.1, 0.2, 0.3, in that order. -/
theorem parsed_entry_param_witness :
    sample_parsing.create "color 0.1 0.2 0.3" = .ok "color 0.1 0.2 0.3" ∧
    (Shader.new sample_parsing "surface" "matte" "layer1"
        ([] ++ ("Cs", "color 0.1 0.2 0.3") :: [])).shader_params
      = [⟨"Cs", .color (1 / 10) (2 / 10) (3 / 10)⟩] :=
  ⟨rfl, (parsed_entry_param sample_parsing "surface" "matte" "layer1" [] []
    "Cs" "color 0.1 0.2 0.3" "color 0.1 0.2 0.3" rfl).1 (1 / 10) (2 / 10) (3 / 10)
      (by simp [sample_parsing]) (by simp [sample_parsing])⟩

theorem add_params_of_all_register (sys : ShadingSystem) (ps : List ShaderParam) :
    ∀ calls, all_register sys ps calls →
      Shader.add_params sys ps calls = (true, calls ++ ps.map .parameter) := by
  induction ps with
  | nil => intro calls _; simp [Shader.add_params]
  | cons p ps ih =>
      intro calls h
      obtain ⟨h1, h2⟩ := h
      simp [Shader.add_params, ShaderParam.add, h1, ih _ h2]

theorem add_params_of_first_failure (sys : ShadingSystem) (pre : List ShaderParam)
    (p : ShaderParam) (post : List ShaderParam) :
    ∀ calls, all_register sys pre calls →
      sys.answer (calls ++ pre.map .parameter) (.parameter p) = false →
      Shader.add_params sys (pre ++ p :: post) calls
        = (false, calls ++ (pre ++ [p]).map .parameter) := by
  induction pre with
  | nil => intro calls _ hf; simp at hf; simp [Shader.add_params, ShaderParam.add, hf]
  | cons q pre ih =>
      intro calls h hf
      obtain ⟨h1, h2⟩ := h
      have hf2 : sys.answer (calls ++ [.parameter q] ++ pre.map .parameter) (.parameter p)
          = false := by simpa using hf
      simp [Shader.add_params, ShaderParam.add, h1, ih _ h2 hf2]

theorem all_register_of_add_params (sys : ShadingSystem) (ps : List ShaderParam) :
    ∀ calls, (Shader.add_params sys ps calls).1 = true → all_register sys ps calls := by
  induction ps with
  | nil => intro calls _; trivial
  | cons p ps ih =>
      intro calls h
      by_cases h1 : sys.answer calls (.parameter p) = true
      · simp [Shader.add_params, ShaderParam.add, h1] at h
        exact ⟨h1, ih _ h⟩
      · simp [Shader.add_params, ShaderParam.add, h1] at h

/-- C15: `Shader::add` returns true exactly when every owned parameter
registers successfully and the declaration of the layer succeeds.  When the
parameters all register, the layer is declared next, with usage `surface`, the
shader name and the layer name, whatever the type the shader was built with;
when a parameter fails to register, `add` returns false and the shading system
has received neither a later parameter nor a declaration. -/
theorem add_true_iff (sh : Shader) (sys : ShadingSystem) (calls : List ShadingCall) :
    ((sh.add sys calls).1 = true ↔
      (all_register sys sh.shader_params calls ∧
        sys.answer (calls ++ sh.shader_params.map .parameter)
          (.shader "surface" sh.get_shader sh.get_layer) = true)) ∧
    (all_register sys sh.shader_params calls →
      (sh.add sys calls).2 = calls ++ sh.shader_params.map .parameter
        ++ [.shader "surface" sh.get_shader sh.get_layer]) ∧
    (∀ pre p post, sh.shader_params = pre ++ p :: post →
      all_register sys pre calls →
      sys.answer (calls ++ pre.map .parameter) (.parameter p) = false →
      sh.add sys calls = (false, calls ++ (pre ++ [p]).map .parameter)) ∧
    (∀ {σ : Type} (P : ShaderParamParser σ) (type shader layer : String)
        (params : List (String × String)),
      (Shader.new P type shader layer params).get_shader = shader ∧
      (Shader.new P type shader layer params).get_layer = layer) := by
  refine ⟨?_, ?_, ?_, fun _ _ _ _ _ => ⟨rfl, rfl⟩⟩
  · constructor
    · intro h
      have hp : (Shader.add_params sys sh.impl.m_params calls).1 = true := by
        by_contra hc
        simp [Shader.add, hc] at h
      have hall := all_register_of_add_params sys _ calls hp
      have he := add_params_of_all_register sys _ calls hall
      refine ⟨hall, ?_⟩
      by_contra hc
      simp only [Shader.shader_params] at hc
      simp [Shader.add, he, hc] at h
    · rintro ⟨hall, hd⟩
      have he := add_params_of_all_register sys _ calls hall
      simp only [Shader.shader_params] at he hd
      simp [Shader.add, he, hd]
  · intro hall
    have he := add_params_of_all_register sys _ calls hall
    simp only [Shader.shader_params] at he ⊢
    by_cases hd : sys.answer (calls ++ sh.impl.m_params.map .parameter)
        (.shader "surface" sh.get_shader sh.get_layer) = true
    · simp [Shader.add, he, hd]
    · simp [Shader.add, he, hd]
  · intro pre p post hps hall hf
    simp only [Shader.shader_params] at hps
    have he := add_params_of_first_failure sys pre p post calls hall hf
    simp only [Shader.add, hps, he]
    simp

/-- C15, witness: a shader built with type `displacement` that owns one float
parameter, added to a shading system that accepts every call, returns true
after the parameter was registered and the layer declared with usage
`surface`. -/
theorem add_true_iff_witness :
    all_register ⟨fun _ _ => true⟩
      (Shader.new sample_parsing "displacement" "bump" "layer1"
        [("Ks", "float 0.5")]).shader_params [] ∧
    (Shader.new sample_parsing "displacement" "bump" "layer1"
        [("Ks", "float 0.5")]).add ⟨fun _ _ => true⟩ []
      = (true, [.parameter ⟨"Ks", .float (1 / 2)⟩, .shader "surface" "bump" "layer1"]) := by
  have hp : (Shader.new sample_parsing "displacement" "bump" "layer1"
      [("Ks", "float 0.5")]).shader_params = [⟨"Ks", .float (1 / 2)⟩] := by
    simp [Shader.new, Shader.shader_params, ShaderImpl.new, ShaderImpl.loop_body,
      ShaderImpl.try_entry, sample_parsing, ShaderParamContainer.insert,
      ShaderParam.create_float_param]
  have hall : all_register ⟨fun _ _ => true⟩
      (Shader.new sample_parsing "displacement" "bump" "layer1"
        [("Ks", "float 0.5")]).shader_params [] := by
    rw [hp]
    exact ⟨rfl, trivial⟩
  have h := add_true_iff (Shader.new sample_parsing "displacement" "bump" "layer1"
    [("Ks", "float 0.5")]) ⟨fun _ _ => true⟩ []
  have h1 := h.1.2 ⟨hall, rfl⟩
  have h2 := h.2.1 hall
  rw [hp] at h2
  exact ⟨hall, Prod.ext h1 h2⟩

theorem string_find_isSome (pat : List Char) (s : List Char) :
    (string_find pat s).isSome = true ↔ pat <:+: s := by
  induction s with
  | nil =>
      simp only [string_find]
      by_cases h : pat.isPrefixOf [] = true
      · simp only [h, if_true, Option.isSome_some, true_iff]
        exact (List.isPrefixOf_iff_prefix.1 h).isInfix
      · simp only [h, if_false, Option.isSome_none, false_iff, Bool.false_eq_true]
        intro hin
        apply h
        have : pat = [] := List.eq_nil_of_infix_nil hin
        subst this
        rfl
  | cons c rest ih =>
      simp only [string_find]
      by_cases h : pat.isPrefixOf (c :: rest) = true
      · simp only [h, if_true, Option.isSome_some, true_iff]
        exact (List.isPrefixOf_iff_prefix.1 h).isInfix
      · simp only [h, if_false, Option.isSome_map', Bool.false_eq_true]
        rw [ih, List.infix_cons_iff]
        constructor
        · intro hr; exact Or.inr hr
        · rintro (hp | hr)
          · exact absurd (List.isPrefixOf_iff_prefix.2 hp) h
          · exact hr

theorem file_lines_getline (chars : List Char) :
    file_lines chars
      = (getline chars).1 ::
          (if (getline chars).2.2 then [] else file_lines (getline chars).2.1) := by
  induction chars with
  | nil => simp [file_lines, getline]
  | cons c rest ih =>
      by_cases hc : c = '\n'
      · simp [file_lines, getline, hc]
      · simp only [file_lines, getline, hc, if_false]
        rw [ih]

theorem getline_length (chars : List Char) (h : (getline chars).2.2 = false) :
    (getline chars).2.1.length < chars.length := by
  induction chars with
  | nil => simp [getline] at h
  | cons c rest ih =>
      by_cases hc : c = '\n'
      · simp [getline, hc]
      · simp only [getline, hc, if_false] at h ⊢
        have := ih h
        simp only [List.length_cons]
        omega

theorem scan_loop_eq (fuel : Nat) :
    ∀ (chars : List Char) (he ht : Bool), chars.length + 2 ≤ fuel →
      scan_loop fuel chars false he ht
        = some (he || (file_lines chars).any fun l => (string_find quoted_emission l).isSome,
            ht || (file_lines chars).any fun l => (string_find quoted_transparent l).isSome) := by
  induction fuel with
  | zero => intro chars he ht h; omega
  | succ fuel ih =>
      intro chars he ht h
      rw [file_lines_getline chars]
      simp only [scan_loop, Bool.false_eq_true, if_false, List.any_cons]
      cases hfe : (string_find quoted_emission (getline chars).1).isSome <;>
      cases hft : (string_find quoted_transparent (getline chars).1).isSome <;>
      cases he <;> cases ht <;>
      simp only [Bool.false_eq_true, if_false, if_true, Bool.and_self, Bool.and_true,
        Bool.and_false, Bool.true_or, Bool.false_or, Bool.or_true, Bool.or_false] <;>
      first
        | rfl
        | (cases heof : (getline chars).2.2
           · have hl := getline_length chars heof
             rw [ih _ _ _ (by omega)]
             simp
           · cases fuel with
             | zero => omega
             | succ fuel => simp [scan_loop])

/-- C16: `get_shader_info` reads the file named by the shader name followed by
`.oso`, resolved through the search paths, and always yields a result.  When
the file cannot be opened both results are false; otherwise `has_emission` is
true exactly when some line of the file contains `emission` between double
quotes, and `has_transparency` exactly when some line contains `transparent`
between double quotes. -/
theorem get_shader_info_result (sh : Shader) (searchpaths : SearchPaths) (fs : FileSystem) :
    ∃ has_emission has_transparency,
      sh.get_shader_info searchpaths fs = some (has_emission, has_transparency) ∧
      (fs (searchpaths.qualify (sh.get_shader ++ ".oso")) = none →
        has_emission = false ∧ has_transparency = false) ∧
      (∀ content, fs (searchpaths.qualify (sh.get_shader ++ ".oso")) = some content →
        (has_emission = true ↔ ∃ line ∈ file_lines content, quoted_emission <:+: line) ∧
        (has_transparency = true ↔
          ∃ line ∈ file_lines content, quoted_transparent <:+: line)) := by
  cases hf : fs (searchpaths.qualify (sh.get_shader ++ ".oso")) with
  | none =>
      refine ⟨false, false, ?_, fun _ => ⟨rfl, rfl⟩, ?_⟩
      · simp [Shader.get_shader_info, hf]
      · intro content hc; cases hc
  | some content =>
      refine ⟨(file_lines content).any fun l => (string_find quoted_emission l).isSome,
        (file_lines content).any fun l => (string_find quoted_transparent l).isSome,
        ?_, ?_, ?_⟩
      · simp only [Shader.get_shader_info, hf]
        rw [scan_loop_eq _ content false false (le_refl _)]
        simp
      · intro hc; cases hc
      · intro content2 hc
        cases hc
        simp [List.any_eq_true, string_find_isSome]

/-- C16, witness: for the shader `glow`, whose file `shaders/glow.oso` has a
line with `emission` between double quotes and none with `transparent`, the
results are true and false; for a shader whose file cannot be opened they are
false and false. -/
theorem get_shader_info_result_witness :
    (Shader.new sample_parsing "surface" "glow" "layer1" []).get_shader_info
        ⟨fun name => "shaders/" ++ name⟩
        (fun path =>
          if path = "shaders/glow.oso" then some "closure \"emission\"\ncode\n".toList
          else none)
      = some (true, false) ∧
    (Shader.new sample_parsing "surface" "matte" "layer1" []).get_shader_info
        ⟨fun name => "shaders/" ++ name⟩
        (fun path =>
          if path = "shaders/glow.oso" then some "closure \"emission\"\ncode\n".toList
          else none)
      = some (false, false) ∧
    ∃ has_emission has_transparency,
      (Shader.new sample_parsing "surface" "glow" "layer1" []).get_shader_info
          ⟨fun name => "shaders/" ++ name⟩ (fun _ => none)
        = some (has_emission, has_transparency) ∧
      has_emission = false ∧ has_transparency = false := by
  refine ⟨by decide, by decide, ?_⟩
  obtain ⟨he, ht, h1, h2, _⟩ := get_shader_info_result
    (Shader.new sample_parsing "surface" "glow" "layer1" [])
    ⟨fun name => "shaders/" ++ name⟩ (fun _ => none)
  exact ⟨he, ht, h1, h2 rfl⟩

/-- C22: in every state reached from construction by any sequence of calls,
the tessellation pointer of the region of the object refers to the one
tessellation the object owns, and `compute_local_bbox` of the region and of
the object both return `compute_local_bbox` of that tessellation as it is at
the time of the call, hence the same box; the query leaves the object as it
was, and the region answers the same box after it. -/
theorem region_bbox_eq_object_bbox (ops : List Op) :
    (run MeshObject.create ops).impl.deref_tess (run MeshObject.create ops).impl.m_region.m_tess
      = some (run MeshObject.create ops).impl.m_tess ∧
    (run MeshObject.create ops).region_compute_local_bbox
      = some (run MeshObject.create ops).impl.m_tess.compute_local_bbox ∧
    (run MeshObject.create ops).compute_local_bbox
      = (run MeshObject.create ops).impl.m_tess.compute_local_bbox ∧
    (run MeshObject.create ops).region_compute_local_bbox
      = some (run MeshObject.create ops).compute_local_bbox ∧
    step (run MeshObject.create ops) .compute_local_bbox = run MeshObject.create ops ∧
    (step (run MeshObject.create ops) .compute_local_bbox).region_compute_local_bbox
      = (run MeshObject.create ops).region_compute_local_bbox := by
  have h := (run_frame ops MeshObject.create).1
  refine ⟨?_, region_bbox_of_run ops, rfl, region_bbox_of_run ops, rfl, rfl⟩
  rw [h]
  rfl

end renderer

namespace foundation

/-! ## Properties of the distance functions -/

theorem foldl_axis_sum {N : Nat} (p : Vector N) (bbox : AABB N) (l : List (Fin N)) :
    ∀ d : ℚ,
      l.foldl
        (fun d i =>
          if p i < bbox.min i then d + square (bbox.min i - p i)
          else if p i > bbox.max i then d + square (bbox.max i - p i)
          else d) d
      = d + (l.map fun i =>
          if p i < bbox.min i then square (bbox.min i - p i)
          else if p i > bbox.max i then square (bbox.max i - p i)
          else 0).sum := by
  induction l with
  | nil => intro d; simp
  | cons i l ih =>
      intro d
      rw [List.foldl_cons, ih]
      by_cases h1 : p i < bbox.min i
      · simp [h1, add_assoc]
      · by_cases h2 : p i > bbox.max i
        · simp [h1, h2, add_assoc]
        · simp [h1, h2]

theorem square_distance_point_aabb_sum {N : Nat} (p : Vector N) (bbox : AABB N) :
    square_distance_point_aabb p bbox
      = ∑ i, (if p i < bbox.min i then square (bbox.min i - p i)
          else if p i > bbox.max i then square (bbox.max i - p i)
          else 0) := by
  unfold square_distance_point_aabb
  rw [foldl_axis_sum, zero_add, Fin.sum_univ_def]

theorem square_distance_sum {N : Nat} (a b : Vector N) :
    square_distance a b = ∑ i, (b i - a i) * (b i - a i) := by
  simp [square_distance, square_norm, dot]

theorem axis_term_eq_clamp {N : Nat} (p : Vector N) (bbox : AABB N) (i : Fin N)
    (h : bbox.min i ≤ bbox.max i) :
    (if p i < bbox.min i then square (bbox.min i - p i)
      else if p i > bbox.max i then square (bbox.max i - p i)
      else 0)
    = (clamp_to_box p bbox i - p i) * (clamp_to_box p bbox i - p i) := by
  unfold clamp_to_box square
  by_cases h1 : p i < bbox.min i
  · have e1 : min (p i) (bbox.max i) = p i := min_eq_left (by linarith)
    have e2 : max (bbox.min i) (p i) = bbox.min i := max_eq_left (le_of_lt h1)
    simp [h1, e1, e2]
  · by_cases h2 : p i > bbox.max i
    · have e1 : min (p i) (bbox.max i) = bbox.max i := min_eq_right (le_of_lt h2)
      have e2 : max (bbox.min i) (bbox.max i) = bbox.max i := max_eq_right h
      simp [h1, h2, e1, e2]
    · have e1 : min (p i) (bbox.max i) = p i := min_eq_left (by linarith)
      have e2 : max (bbox.min i) (p i) = p i := max_eq_right (by linarith)
      simp [h1, h2, e1, e2]

theorem clamp_inside {N : Nat} (p : Vector N) (bbox : AABB N)
    (h : ∀ i, bbox.min i ≤ bbox.max i) : inside (clamp_to_box p bbox) bbox := by
  intro i
  unfold clamp_to_box
  exact ⟨le_max_left _ _, max_le (h i) (min_le_right _ _)⟩

theorem clamp_nearest_axis {N : Nat} (p q : Vector N) (bbox : AABB N) (i : Fin N)
    (hq : bbox.min i ≤ q i ∧ q i ≤ bbox.max i) :
    (clamp_to_box p bbox i - p i) * (clamp_to_box p bbox i - p i)
      ≤ (q i - p i) * (q i - p i) := by
  obtain ⟨hq1, hq2⟩ := hq
  unfold clamp_to_box
  by_cases h1 : p i < bbox.min i
  · have e1 : min (p i) (bbox.max i) = p i := min_eq_left (by linarith)
    have e2 : max (bbox.min i) (p i) = bbox.min i := max_eq_left (le_of_lt h1)
    rw [e1, e2]
    nlinarith
  · by_cases h2 : p i > bbox.max i
    · have e1 : min (p i) (bbox.max i) = bbox.max i := min_eq_right (le_of_lt h2)
      have e2 : max (bbox.min i) (bbox.max i) = bbox.max i := max_eq_right (by linarith)
      rw [e1, e2]
      nlinarith
    · have e1 : min (p i) (bbox.max i) = p i := min_eq_left (by linarith)
      have e2 : max (bbox.min i) (p i) = p i := max_eq_right (by linarith)
      rw [e1, e2]
      nlinarith [mul_self_nonneg (q i - p i)]

theorem axis_term_nonneg {N : Nat} (p : Vector N) (bbox : AABB N) (i : Fin N) :
    0 ≤ (if p i < bbox.min i then square (bbox.min i - p i)
      else if p i > bbox.max i then square (bbox.max i - p i)
      else 0) := by
  unfold square
  split
  · exact mul_self_nonneg _
  · split
    · exact mul_self_nonneg _
    · exact le_refl _

theorem axis_term_eq_zero {N : Nat} (p : Vector N) (bbox : AABB N) (i : Fin N) :
    (if p i < bbox.min i then square (bbox.min i - p i)
      else if p i > bbox.max i then square (bbox.max i - p i)
      else 0) = 0 ↔ (bbox.min i ≤ p i ∧ p i ≤ bbox.max i) := by
  unfold square
  by_cases h1 : p i < bbox.min i
  · simp only [h1, if_true, mul_self_eq_zero]
    constructor
    · intro e; linarith
    · intro e; linarith [e.1]
  · by_cases h2 : p i > bbox.max i
    · simp only [h1, h2, if_true, if_false, mul_self_eq_zero]
      constructor
      · intro e; linarith
      · intro e; linarith [e.2]
    · simp only [h1, h2, if_false, true_iff]
      exact ⟨by linarith, by linarith⟩

/-- C17: over exact arithmetic, in every dimension, for a box whose min is at
most its max on every axis, `square_distance` between a point and the box is
the square distance between the point and its componentwise clamp into the
box; the clamp lies in the box and no point of the box is nearer; the result
is 0 exactly when the point is inside the box; and the overload that takes the
box first returns the same value. -/
theorem square_distance_point_aabb_is_nearest {N : Nat} (p : Vector N) (bbox : AABB N)
    (h : ∀ i, bbox.min i ≤ bbox.max i) :
    square_distance_point_aabb p bbox = square_distance p (clamp_to_box p bbox) ∧
    inside (clamp_to_box p bbox) bbox ∧
    (∀ q, inside q bbox → square_distance p (clamp_to_box p bbox) ≤ square_distance p q) ∧
    (square_distance_point_aabb p bbox = 0 ↔ inside p bbox) ∧
    square_distance_aabb_point bbox p = square_distance_point_aabb p bbox := by
  refine ⟨?_, clamp_inside p bbox h, ?_, ?_, rfl⟩
  · rw [square_distance_point_aabb_sum, square_distance_sum]
    exact Finset.sum_congr rfl fun i _ => axis_term_eq_clamp p bbox i (h i)
  · intro q hq
    rw [square_distance_sum, square_distance_sum]
    exact Finset.sum_le_sum fun i _ => clamp_nearest_axis p q bbox i (hq i)
  · rw [square_distance_point_aabb_sum,
      Finset.sum_eq_zero_iff_of_nonneg fun i _ => axis_term_nonneg p bbox i]
    constructor
    · intro hz i
      exact (axis_term_eq_zero p bbox i).1 (hz i (Finset.mem_univ i))
    · intro hin i _
      exact (axis_term_eq_zero p bbox i).2 (hin i)

/-- C17, witness: in dimension 2, for the box from (0, 0) to (1, 1), the point
(3, 1/2) is at square distance 4, its clamp is (1, 1/2), and the point
(1/2, 1/2) is inside the box, at square distance 0. -/
theorem square_distance_point_aabb_is_nearest_witness :
    (∀ i, (⟨![0, 0], ![1, 1]⟩ : AABB 2).min i ≤ (⟨![0, 0], ![1, 1]⟩ : AABB 2).max i) ∧
    square_distance_point_aabb ![3, 1 / 2] ⟨![0, 0], ![1, 1]⟩ = 4 ∧
    square_distance_point_aabb ![3, 1 / 2] ⟨![0, 0], ![1, 1]⟩
      = square_distance ![3, 1 / 2] (clamp_to_box ![3, 1 / 2] ⟨![0, 0], ![1, 1]⟩) ∧
    square_distance_point_aabb ![1 / 2, 1 / 2] ⟨![0, 0], ![1, 1]⟩ = 0 := by
  have hb : ∀ i, (⟨![0, 0], ![1, 1]⟩ : AABB 2).min i ≤ (⟨![0, 0], ![1, 1]⟩ : AABB 2).max i := by
    intro i
    fin_cases i <;> simp
  have hin : inside ![1 / 2, 1 / 2] (⟨![0, 0], ![1, 1]⟩ : AABB 2) := by
    intro i
    fin_cases i <;> norm_num
  refine ⟨hb, ?_, (square_distance_point_aabb_is_nearest _ _ hb).1,
    (square_distance_point_aabb_is_nearest _ _ hb).2.2.2.1.2 hin⟩
  simp [square_distance_point_aabb, List.finRange, square]
  norm_num

theorem square_norm_sub_smul {N : Nat} (u v : Vector N) (t : ℚ) :
    square_norm (u - t • v) = dot u u - 2 * t * dot u v + t * t * dot v v := by
  simp only [square_norm, dot, Pi.sub_apply, Pi.smul_apply, smul_eq_mul, Finset.mul_sum]
  rw [← Finset.sum_sub_distrib, ← Finset.sum_add_distrib]
  exact Finset.sum_congr rfl fun i _ => by ring

theorem dot_sub_smul_left {N : Nat} (u v : Vector N) (s : ℚ) :
    dot (u - s • v) v = dot u v - s * dot v v := by
  simp only [dot, Pi.sub_apply, Pi.smul_apply, smul_eq_mul, Finset.mul_sum]
  rw [← Finset.sum_sub_distrib]
  exact Finset.sum_congr rfl fun i _ => by ring

theorem square_distance_point_at {N : Nat} (p a v : Vector N) (t : ℚ) :
    square_distance p (point_at a v t) = square_norm ((p - a) - t • v) := by
  simp only [square_distance, point_at, square_norm, dot, Pi.sub_apply, Pi.add_apply,
    Pi.smul_apply, smul_eq_mul]
  exact Finset.sum_congr rfl fun i _ => by ring

theorem square_distance_eq_dot {N : Nat} (p a : Vector N) :
    square_distance p a = dot (p - a) (p - a) := by
  simp only [square_distance, square_norm, dot, Pi.sub_apply]
  exact Finset.sum_congr rfl fun i _ => by ring

theorem square_norm_nonneg {N : Nat} (w : Vector N) : 0 ≤ square_norm w := by
  simp only [square_norm, dot]
  exact Finset.sum_nonneg fun i _ => mul_self_nonneg _

theorem square_norm_eq_zero {N : Nat} (w : Vector N) : square_norm w = 0 ↔ w = 0 := by
  simp only [square_norm, dot]
  rw [Finset.sum_eq_zero_iff_of_nonneg fun i _ => mul_self_nonneg _]
  constructor
  · intro h
    funext i
    exact mul_self_eq_zero.1 (h i (Finset.mem_univ i))
  · intro h i _
    rw [h]
    simp

/-- C19: over exact arithmetic, in every dimension, for a direction `v` with
`dot v v = 1`, `square_distance_point_line` returns the square distance
between the point and the point of the line at abscissa `dot (point - a) v`,
which is the least square distance between the point and a point of the line;
it is at most the square distance between the point and `a`, it is unchanged
when `a` is moved along the line, and it is 0 exactly when the point lies on
the line. -/
theorem square_distance_point_line_is_min {N : Nat} (p a v : Vector N)
    (hv : dot v v = 1) :
    ∃ d, square_distance_point_line p a v = some d ∧
      d = square_distance p (point_at a v (dot (p - a) v)) ∧
      (∀ t, d ≤ square_distance p (point_at a v t)) ∧
      d ≤ square_distance p a ∧
      (∀ s, square_distance_point_line p (point_at a v s) v = some d) ∧
      (d = 0 ↔ ∃ t, p = point_at a v t) := by
  have hn : is_normalized v = true := by simp [is_normalized, square_norm, hv]
  have hd : ∀ a2 : Vector N, square_distance_point_line p a2 v
      = some (dot (p - a2) (p - a2) - dot (p - a2) v * dot (p - a2) v) := by
    intro a2
    simp only [square_distance_point_line, hn, if_true, square_norm_sub_smul, hv]
    congr 1
    ring
  have hg : ∀ t, square_distance p (point_at a v t)
      = dot (p - a) (p - a) - 2 * t * dot (p - a) v + t * t := by
    intro t
    rw [square_distance_point_at, square_norm_sub_smul, hv, mul_one]
  refine ⟨_, hd a, ?_, ?_, ?_, ?_, ?_⟩
  · rw [hg]; ring
  · intro t
    rw [hg]
    nlinarith [mul_self_nonneg (t - dot (p - a) v)]
  · rw [square_distance_eq_dot]
    nlinarith [mul_self_nonneg (dot (p - a) v)]
  · intro s
    rw [hd]
    have e : p - point_at a v s = (p - a) - s • v := by
      funext i
      simp only [point_at, Pi.sub_apply, Pi.add_apply, Pi.smul_apply, smul_eq_mul]
      ring
    rw [e, dot_sub_smul_left, hv]
    have e2 : dot ((p - a) - s • v) ((p - a) - s • v)
        = dot (p - a) (p - a) - 2 * s * dot (p - a) v + s * s * dot v v :=
      square_norm_sub_smul (p - a) v s
    rw [e2, hv]
    congr 1
    ring
  · constructor
    · intro h0
      refine ⟨dot (p - a) v, ?_⟩
      have h1 : square_norm ((p - a) - dot (p - a) v • v) = 0 := by
        rw [square_norm_sub_smul, hv]
        linarith
      have h2 := (square_norm_eq_zero _).1 h1
      funext i
      have h3 := congrFun h2 i
      simp only [Pi.sub_apply, Pi.smul_apply, smul_eq_mul, Pi.zero_apply] at h3
      simp only [point_at, Pi.add_apply, Pi.smul_apply, smul_eq_mul]
      linarith
    · rintro ⟨t, ht⟩
      have hz : square_distance p (point_at a v t) = 0 := by
        rw [← ht]
        simp [square_distance, square_norm, dot]
      have hle : dot (p - a) (p - a) - dot (p - a) v * dot (p - a) v
          ≤ square_distance p (point_at a v t) := by
        rw [hg]
        nlinarith [mul_self_nonneg (t - dot (p - a) v)]
      have hge : 0 ≤ dot (p - a) (p - a) - dot (p - a) v * dot (p - a) v := by
        have := square_norm_nonneg ((p - a) - dot (p - a) v • v)
        rw [square_norm_sub_smul, hv] at this
        linarith
      linarith

/-- C19, witness: in dimension 2, the point (3, 4) is at square distance 16
from the line through (0, 0) with direction (1, 0). -/
theorem square_distance_point_line_is_min_witness :
    dot (![1, 0] : Vector 2) ![1, 0] = 1 ∧
    square_distance_point_line (![3, 4] : Vector 2) ![0, 0] ![1, 0] = some 16 ∧
    ∃ d, square_distance_point_line (![3, 4] : Vector 2) ![0, 0] ![1, 0] = some d ∧
      d ≤ square_distance (![3, 4] : Vector 2) ![0, 0] := by
  have hv : dot (![1, 0] : Vector 2) ![1, 0] = 1 := by
    simp [dot, Fin.sum_univ_two]
  obtain ⟨d, h1, _, _, h4, _⟩ :=
    square_distance_point_line_is_min (![3, 4] : Vector 2) ![0, 0] ![1, 0] hv
  refine ⟨hv, ?_, d, h1, h4⟩
  simp [square_distance_point_line, is_normalized, square_norm, dot, Fin.sum_univ_two]
  norm_num

theorem square_norm_pos_of_ne {N : Nat} (a b : Vector N) (hab : a ≠ b) :
    0 < square_norm (b - a) := by
  rcases lt_or_eq_of_le (square_norm_nonneg (b - a)) with h | h
  · exact h
  · exfalso
    apply hab
    have h2 := (square_norm_eq_zero _).1 h.symm
    funext i
    have h3 := congrFun h2 i
    simp only [Pi.sub_apply, Pi.zero_apply] at h3
    linarith

theorem saturate_bounds (x : ℚ) : 0 ≤ saturate x ∧ saturate x ≤ 1 := by
  unfold saturate
  by_cases h1 : x < 0
  · simp [h1]
  · by_cases h2 : x > 1
    · simp [h1, h2]
    · simp only [h1, h2, if_false]
      exact ⟨by linarith, by linarith⟩

theorem segment_value {N : Nat} (p a b : Vector N) (hab : a ≠ b) :
    square_distance_point_segment p a b
      = some (square_distance p
          (point_at a (b - a) (saturate (dot (p - a) (b - a) / square_norm (b - a))))) := by
  have hpos := square_norm_pos_of_ne a b hab
  simp only [square_distance_point_segment, hpos, if_true, square_distance_point_at]

theorem segment_min {N : Nat} (p a b : Vector N) (hab : a ≠ b) (t : ℚ)
    (h0 : 0 ≤ t) (h1 : t ≤ 1) :
    square_distance p
        (point_at a (b - a) (saturate (dot (p - a) (b - a) / square_norm (b - a))))
      ≤ square_distance p (point_at a (b - a) t) := by
  have hpos := square_norm_pos_of_ne a b hab
  rw [square_distance_point_at, square_distance_point_at, square_norm_sub_smul,
    square_norm_sub_smul]
  have hvv : dot (b - a) (b - a) = square_norm (b - a) := rfl
  rw [hvv]
  generalize hW : square_norm (b - a) = W at hpos
  generalize dot (p - a) (b - a) = D
  generalize dot (p - a) (p - a) = U
  unfold saturate
  by_cases c1 : D / W < 0
  · simp only [c1, if_true]
    have hD : D < 0 := by
      by_contra hc
      have : 0 ≤ D / W := div_nonneg (not_lt.1 hc) (le_of_lt hpos)
      linarith
    nlinarith [mul_nonneg h0 (le_of_lt hpos), mul_nonneg h0 h0]
  · by_cases c2 : D / W > 1
    · simp only [c1, c2, if_true, if_false]
      have hD : W < D := by
        have := (lt_div_iff₀ hpos).1 c2
        linarith
      nlinarith [mul_nonneg (sub_nonneg.2 h1) (le_of_lt hpos),
        mul_nonneg (sub_nonneg.2 h1) (sub_nonneg.2 h1)]
    · simp only [c1, c2, if_false]
      have hW0 : W ≠ 0 := ne_of_gt hpos
      have e : U - 2 * (D / W) * D + D / W * (D / W) * W = U - D * D / W := by
        field_simp
        ring
      rw [e]
      have key : U - 2 * t * D + t * t * W - (U - D * D / W) = (t * W - D) * (t * W - D) / W := by
        field_simp
        ring
      have hq : 0 ≤ (t * W - D) * (t * W - D) / W :=
        div_nonneg (mul_self_nonneg _) (le_of_lt hpos)
      linarith

theorem point_at_swap {N : Nat} (a b : Vector N) (t : ℚ) :
    point_at b (a - b) t = point_at a (b - a) (1 - t) := by
  funext i
  simp only [point_at, Pi.add_apply, Pi.smul_apply, Pi.sub_apply, smul_eq_mul]
  ring

/-- C18: over exact arithmetic, in every dimension, for two distinct points `a`
and `b`, `square_distance_point_segment` returns the least square distance
between the point and a point `a + t (b - a)` of the segment, `t` between 0
and 1; it is unchanged when `a` and `b` are swapped, it is the square distance
to `a` when the projection of the point falls before `a`, and the square
distance to `b` when it falls past `b`. -/
theorem square_distance_point_segment_is_min {N : Nat} (p a b : Vector N) (hab : a ≠ b) :
    ∃ d, square_distance_point_segment p a b = some d ∧
      (∃ t, 0 ≤ t ∧ t ≤ 1 ∧ d = square_distance p (point_at a (b - a) t)) ∧
      (∀ t, 0 ≤ t → t ≤ 1 → d ≤ square_distance p (point_at a (b - a) t)) ∧
      square_distance_point_segment p b a = some d ∧
      (dot (p - a) (b - a) ≤ 0 → d = square_distance p a) ∧
      (square_norm (b - a) ≤ dot (p - a) (b - a) → d = square_distance p b) := by
  have hpos := square_norm_pos_of_ne a b hab
  have hba : b ≠ a := fun h => hab h.symm
  have hs := saturate_bounds (dot (p - a) (b - a) / square_norm (b - a))
  have hs2 := saturate_bounds (dot (p - b) (a - b) / square_norm (a - b))
  refine ⟨_, segment_value p a b hab, ⟨_, hs.1, hs.2, rfl⟩, segment_min p a b hab, ?_, ?_, ?_⟩
  · rw [segment_value p b a hba]
    congr 1
    apply le_antisymm
    · have h := segment_min p b a hba
        (1 - saturate (dot (p - a) (b - a) / square_norm (b - a)))
        (by linarith [hs.2]) (by linarith [hs.1])
      rw [point_at_swap a b (1 - saturate (dot (p - a) (b - a) / square_norm (b - a)))] at h
      simpa using h
    · have h := segment_min p a b hab
        (1 - saturate (dot (p - b) (a - b) / square_norm (a - b)))
        (by linarith [hs2.2]) (by linarith [hs2.1])
      rw [point_at_swap a b (saturate (dot (p - b) (a - b) / square_norm (a - b)))]
      exact h
  · intro hle
    have hq : dot (p - a) (b - a) / square_norm (b - a) ≤ 0 :=
      div_nonpos_of_nonpos_of_nonneg hle (le_of_lt hpos)
    have e : saturate (dot (p - a) (b - a) / square_norm (b - a)) = 0 := by
      unfold saturate
      by_cases c1 : dot (p - a) (b - a) / square_norm (b - a) < 0
      · simp [c1]
      · have c2 : ¬ dot (p - a) (b - a) / square_norm (b - a) > 1 := by linarith
        simp only [c1, c2, if_false]
        linarith
    rw [e]
    congr 1
    funext i
    simp [point_at]
  · intro hge
    have hq : 1 ≤ dot (p - a) (b - a) / square_norm (b - a) :=
      (le_div_iff₀ hpos).2 (by linarith)
    have e : saturate (dot (p - a) (b - a) / square_norm (b - a)) = 1 := by
      unfold saturate
      have c1 : ¬ dot (p - a) (b - a) / square_norm (b - a) < 0 := by linarith
      by_cases c2 : dot (p - a) (b - a) / square_norm (b - a) > 1
      · simp [c1, c2]
      · simp only [c1, c2, if_false]
        linarith
    rw [e]
    congr 1
    funext i
    simp [point_at]

/-- C18, witness: in dimension 2, for the segment from (0, 0) to (2, 0), the
point (1, 3) is at square distance 9, and the point (-3, 4), whose projection
falls before the first end, is at square distance 25, its square distance to
that end. -/
theorem square_distance_point_segment_is_min_witness :
    (![0, 0] : Vector 2) ≠ ![2, 0] ∧
    square_distance_point_segment (![1, 3] : Vector 2) ![0, 0] ![2, 0] = some 9 ∧
    square_distance_point_segment (![-3, 4] : Vector 2) ![0, 0] ![2, 0] = some 25 ∧
    ∃ d, square_distance_point_segment (![1, 3] : Vector 2) ![0, 0] ![2, 0] = some d ∧
      square_distance_point_segment (![1, 3] : Vector 2) ![2, 0] ![0, 0] = some d := by
  have hab : (![0, 0] : Vector 2) ≠ ![2, 0] := by
    intro h
    have := congrFun h 0
    simp at this
  obtain ⟨d, h1, _, _, h4, _⟩ :=
    square_distance_point_segment_is_min (![1, 3] : Vector 2) ![0, 0] ![2, 0] hab
  refine ⟨hab, ?_, ?_, d, h1, h4⟩
  · simp [square_distance_point_segment, square_norm, dot, Fin.sum_univ_two, saturate]
    norm_num
  · simp [square_distance_point_segment, square_norm, dot, Fin.sum_univ_two, saturate]
    norm_num

/-! ## Properties of the path functions -/

theorem find_next_loop_spec (w : Nat) (gns : String → Nat → String) (ex : String → Bool)
    (path : String) (fuel : Nat) :
    ∀ v, 1 ≤ v → v ≤ 2 ^ w → 2 ^ w - v + 1 ≤ fuel →
      (∀ j, 1 ≤ j → j < v → ex (gns path j) = true) →
      ∃ r, find_next_loop w gns ex path fuel (v % 2 ^ w) = some r ∧
        (∀ k, 1 ≤ k → k < 2 ^ w → ex (gns path k) = false →
          (∀ j, 1 ≤ j → j < k → ex (gns path j) = true) → r = gns path k) ∧
        ((∀ k, 1 ≤ k → k < 2 ^ w → ex (gns path k) = true) → r = gns path 1) := by
  induction fuel with
  | zero => intro v _ _ hf; omega
  | succ fuel ih =>
      intro v hv1 hv2 hf hprev
      rcases Nat.lt_or_ge v (2 ^ w) with hlt | hge
      · have hmod : v % 2 ^ w = v := Nat.mod_eq_of_lt hlt
        have hv0 : v ≠ 0 := by omega
        rw [hmod]
        cases hex : ex (gns path v)
        · refine ⟨gns path v, by simp [find_next_loop, hv0, hex], ?_, ?_⟩
          · intro k hk1 hk2 hkf hkprev
            rcases Nat.lt_trichotomy k v with h | h | h
            · rw [hprev k hk1 h] at hkf; cases hkf
            · rw [h]
            · rw [hkprev v hv1 h] at hex; cases hex
          · intro hall
            rw [hall v hv1 hlt] at hex; cases hex
        · have hprev2 : ∀ j, 1 ≤ j → j < v + 1 → ex (gns path j) = true := by
            intro j hj1 hj2
            rcases Nat.lt_or_ge j v with h | h
            · exact hprev j hj1 h
            · have : j = v := by omega
              rw [this]; exact hex
          obtain ⟨r, hr, hspec⟩ := ih (v + 1) (by omega) (by omega) (by omega) hprev2
          exact ⟨r, by simp [find_next_loop, hv0, hex, hr], hspec⟩
      · have hv : v = 2 ^ w := by omega
        have hmod : v % 2 ^ w = 0 := by rw [hv]; exact Nat.mod_self _
        rw [hmod]
        refine ⟨gns path 1, by simp [find_next_loop], ?_, fun _ => rfl⟩
        intro k hk1 hk2 hkf _
        rw [hprev k hk1 (by omega)] at hkf
        cases hkf

/-- C20: for every path pattern, every numbering function and every state of
the disk, `find_next_available_path` terminates with a path.  If some value `k`
from 1 up to the largest `size_t` gives a numbered path that does not exist
while the numbered paths of 1 to `k - 1` all exist, the result is the numbered
path of `k`; if the numbered path exists for every non-zero `size_t` value, the
result is the numbered path of 1. -/
theorem find_next_available_path_least (w : Nat) (get_numbered_string : String → Nat → String)
    (exists_on_disk : String → Bool) (path : String) :
    ∃ r, find_next_available_path w get_numbered_string exists_on_disk path = some r ∧
      (∀ k, 1 ≤ k → k < 2 ^ w → exists_on_disk (get_numbered_string path k) = false →
        (∀ j, 1 ≤ j → j < k → exists_on_disk (get_numbered_string path j) = true) →
        r = get_numbered_string path k) ∧
      ((∀ k, 1 ≤ k → k < 2 ^ w → exists_on_disk (get_numbered_string path k) = true) →
        r = get_numbered_string path 1) := by
  have h1 : 1 ≤ 2 ^ w := Nat.one_le_two_pow
  exact find_next_loop_spec w get_numbered_string exists_on_disk path (2 ^ w) 1
    (le_refl 1) h1 (by omega) (fun j hj1 hj2 => by omega)

/-- C20, witness: with 64-bit values, when `frame.1` and `frame.2` exist and
`frame.3` does not, the result is `frame.3`, the numbered path of the least
value whose path does not exist; with 2-bit values, when every numbered path
exists, the result is `frame.1`. -/
theorem find_next_available_path_least_witness :
    find_next_available_path 64 (fun path k => path ++ "." ++ Nat.repr k)
        (fun p => p = "frame.1" || p = "frame.2") "frame" = some "frame.3" ∧
    find_next_available_path 2 (fun path k => path ++ "." ++ Nat.repr k)
        (fun _ => true) "frame" = some "frame.1" ∧
    ∃ r, find_next_available_path 64 (fun path k => path ++ "." ++ Nat.repr k)
        (fun p => p = "frame.1" || p = "frame.2") "frame" = some r ∧
      r = (fun path k => path ++ "." ++ Nat.repr k) "frame" 3 := by
  refine ⟨by decide, by decide, ?_⟩
  obtain ⟨r, hr, h1, _⟩ := find_next_available_path_least 64
    (fun path k => path ++ "." ++ Nat.repr k)
    (fun p => p = "frame.1" || p = "frame.2") "frame"
  refine ⟨r, hr, h1 3 (by decide) (by decide) (by decide) ?_⟩
  intro j hj1 hj2
  interval_cases j <;> decide

end foundation
